import Mathlib

/-!
Shallow embedding of the inf2c-virt-memory simulator (cache.c, tlb.c,
pagetable.c, ll.c, multilevel_cache.c, main.c) and verification of the
frozen claims about it.

Modelling conventions:
* C fixed-size arrays of structs are modelled as Lean lists; array indexing
  is modelled with List.getD / List.set.
* The intrusive doubly-linked recency (LRU) lists (prev/next pointers inside
  cache lines, TLB entries and pages) are modelled as a list of slot indices
  ordered from head (most recently used) to tail (least recently used); the
  C pointer surgery of lru_move_to_head corresponds exactly to removing the
  index and consing it at the front.
* uint32 arithmetic is modelled on Nat; shifts and masks agree with the C
  for the in-range values produced by validated configurations.
* Out parameters (uint32 *ppn, bool *dirty) are modelled as returned values;
  on a miss the C leaves them unassigned and the caller never reads them,
  and the model likewise returns values the caller ignores on that path.
* The page table array pte_t page_table[PAGE_TABLE_ENTRIES] is modelled as a
  total function Nat -> pte_t (C indexes it with the VPN without any bounds
  check); the bounds question itself is treated separately via get_vpn.
* Code paths that dereference a pointer that can only be NULL/garbage when
  internal invariants are broken (select_victim finding nothing, the fatal
  empty-lists branch of pagetable_handle_fault) are modelled as Option-none.
-/

namespace VirtMem

/-! ## types.h -/

/-- Associativity codes from types.h (DIRECT_MAPPED=1, FULLY_ASSOC=2,
TWO_WAY=3, FOUR_WAY=4). -/
inductive assoc_type_t where
  | DIRECT_MAPPED
  | FULLY_ASSOC
  | TWO_WAY
  | FOUR_WAY
deriving Repr, DecidableEq

open assoc_type_t

/-- cache_result_t enum values from types.h (the multilevel code does
arithmetic on them: CACHE_HIT_L1 + level). -/
def CACHE_HIT : Nat := 0
def CACHE_MISS : Nat := 1
def CACHE_HIT_L1 : Nat := 10
def CACHE_HIT_L2 : Nat := 11
def CACHE_MISS_ALL_LEVELS : Nat := 30

inductive tlb_result_t where
  | TLB_HIT
  | TLB_MISS
deriving Repr, DecidableEq

inductive pt_result_t where
  | PT_HIT
  | PT_MISS
deriving Repr, DecidableEq

open tlb_result_t pt_result_t

def PAGE_SIZE : Nat := 4096
def NUM_PHYSICAL_PAGES : Nat := 256
def PAGE_TABLE_ENTRIES : Nat := 2 ^ 14

/-! ## cache.c: helpers -/

/-- The while (n > 1) { n >>= 1; log++ } loop of log2_uint32, made
structurally recursive on a fuel argument that bounds the number of
iterations (n itself always suffices, since n halves each round). -/
def log2_aux : Nat → Nat → Nat
  | 0, _ => 0
  | fuel + 1, n => if n ≤ 1 then 0 else 1 + log2_aux fuel (n / 2)

/-- log2_uint32 from cache.c. -/
def log2_uint32 (n : Nat) : Nat := log2_aux n n

/-- Index of the first element satisfying p, scanning from index 0 upward;
this is the loop shape shared by find_line, find_invalid_line,
find_tlb_entry and find_invalid_tlb_entry. -/
def firstIdxWhere {α : Type} (p : α → Bool) : List α → Option Nat
  | [] => none
  | x :: xs => if p x then some 0 else (firstIdxWhere p xs).map (· + 1)

/-! ## cache.c: data model -/

structure cache_line_t where
  valid : Bool := false
  dirty : Bool := false
  tag : Nat := 0
deriving Repr, DecidableEq

instance : Inhabited cache_line_t := ⟨{}⟩

/-- A cache set: the array of lines plus the recency list (way indices,
head = MRU, last = LRU tail).  For num_ways <= 1 the C never initializes
the list (lru_head = lru_tail = NULL), modelled as the empty list. -/
structure cache_set_t where
  num_ways : Nat := 0
  lines : List cache_line_t := []
  lru : List Nat := []
deriving Repr, DecidableEq

instance : Inhabited cache_set_t := ⟨{}⟩

structure cache_config_t where
  size : Nat
  block_size : Nat
  associativity : assoc_type_t
deriving Repr, DecidableEq

structure cache_t where
  size : Nat
  block_size : Nat
  associativity : assoc_type_t
  num_sets : Nat
  ways_per_set : Nat
  offset_bits : Nat
  index_bits : Nat
  tag_bits : Nat
  sets : List cache_set_t
  accesses : Nat := 0
  hits : Nat := 0
  misses : Nat := 0
  reads : Nat := 0
  read_hits : Nat := 0
  writes : Nat := 0
  write_hits : Nat := 0
deriving Repr, DecidableEq

instance : Inhabited cache_t :=
  ⟨⟨0, 0, DIRECT_MAPPED, 0, 0, 0, 0, 0, [], 0, 0, 0, 0, 0, 0, 0⟩⟩

/-! ## cache.c: operations -/

/-- init_lru_list: links lines 0..n-1 in order (head = line 0) when
num_ways > 1; does nothing for a direct-mapped set. -/
def init_lru_list (num_ways : Nat) : List Nat :=
  if num_ways ≤ 1 then [] else List.range num_ways

/-- lru_move_to_head from cache.c: no-op when there is no LRU tracking
(num_ways <= 1) or the line is already the head; otherwise unlink the
line and insert it at the head. -/
def lru_move_to_head (s : cache_set_t) (i : Nat) : cache_set_t :=
  if s.num_ways ≤ 1 ∨ s.lru.head? = some i then s
  else { s with lru := i :: s.lru.erase i }

/-- find_line: first way whose line is valid with a matching tag. -/
def find_line (s : cache_set_t) (tag : Nat) : Option Nat :=
  firstIdxWhere (fun l => l.valid && l.tag == tag) s.lines

/-- find_invalid_line: first way whose line is invalid. -/
def find_invalid_line (s : cache_set_t) : Option Nat :=
  firstIdxWhere (fun l => !l.valid) s.lines

/-- select_victim: an invalid line if any, else the sole line of a
direct-mapped set, else the tail of the recency list. -/
def select_victim (s : cache_set_t) : Option Nat :=
  match find_invalid_line s with
  | some i => some i
  | none => if s.num_ways == 1 then some 0 else s.lru.getLast?

/-- cache_get_index from cache.c. -/
def cache_get_index (c : cache_t) (addr : Nat) : Nat :=
  if c.associativity = FULLY_ASSOC then 0
  else (addr >>> c.offset_bits) &&& ((1 <<< c.index_bits) - 1)

/-- cache_get_tag from cache.c. -/
def cache_get_tag (c : cache_t) (addr : Nat) : Nat :=
  addr >>> (c.offset_bits + c.index_bits)

/-- cache_get_offset from cache.c. -/
def cache_get_offset (c : cache_t) (addr : Nat) : Nat :=
  addr &&& ((1 <<< c.offset_bits) - 1)

/-- cache_init from cache.c.  calloc failure is not modelled (the enum is
total, so the default branch returning NULL has no counterpart). -/
def cache_init (config : cache_config_t) : cache_t :=
  let (num_sets, ways_per_set) :=
    match config.associativity with
    | DIRECT_MAPPED => (config.size / config.block_size, 1)
    | FULLY_ASSOC => (1, config.size / config.block_size)
    | TWO_WAY => (config.size / (config.block_size * 2), 2)
    | FOUR_WAY => (config.size / (config.block_size * 4), 4)
  let offset_bits := log2_uint32 config.block_size
  let index_bits :=
    if config.associativity = FULLY_ASSOC then 0 else log2_uint32 num_sets
  { size := config.size
    block_size := config.block_size
    associativity := config.associativity
    num_sets := num_sets
    ways_per_set := ways_per_set
    offset_bits := offset_bits
    index_bits := index_bits
    tag_bits := 32 - offset_bits - index_bits
    sets := List.replicate num_sets
      { num_ways := ways_per_set
        lines := List.replicate ways_per_set {}
        lru := init_lru_list ways_per_set } }

/-- Result of one cache_access: the returned cache_result_t value, the
updated cache, and the addresses passed to write_block_to_memory (the
write-back signals, at most one per access). -/
structure cache_access_out where
  result : Nat
  cache : cache_t
  writebacks : List Nat
deriving Repr, DecidableEq

/-- cache_access from cache.c.  Returns none only when a miss finds no
victim (select_victim = NULL), which dereferences garbage in the C and is
unreachable for caches built by cache_init. -/
def cache_access (c0 : cache_t) (addr : Nat) (is_write : Bool) :
    Option cache_access_out :=
  let c := { c0 with
    accesses := c0.accesses + 1
    reads := if is_write then c0.reads else c0.reads + 1
    writes := if is_write then c0.writes + 1 else c0.writes }
  -- index, tag and the set depend only on geometry fields, which the
  -- statistics update above leaves unchanged, so they read from c0
  let index := cache_get_index c0 addr
  let tag := cache_get_tag c0 addr
  let set := c0.sets.getD index default
  match find_line set tag with
  | some i =>
      let line := set.lines.getD i default
      let line' := if is_write then { line with dirty := true } else line
      let set' := lru_move_to_head { set with lines := set.lines.set i line' } i
      some { result := CACHE_HIT
             cache := { c with
               hits := c.hits + 1
               read_hits := if is_write then c.read_hits else c.read_hits + 1
               write_hits := if is_write then c.write_hits + 1 else c.write_hits
               sets := c.sets.set index set' }
             writebacks := [] }
  | none =>
      match select_victim set with
      | none => none
      | some v =>
          let victim := set.lines.getD v default
          let wbs :=
            if victim.valid && victim.dirty then
              [(victim.tag <<< (c.offset_bits + c.index_bits)) |||
               (index <<< c.offset_bits)]
            else []
          let newline : cache_line_t := { valid := true, dirty := is_write, tag := tag }
          let set' := lru_move_to_head { set with lines := set.lines.set v newline } v
          some { result := CACHE_MISS
                 cache := { c with
                   misses := c.misses + 1
                   sets := c.sets.set index set' }
                 writebacks := wbs }

/-- Fold cache_access over a trace of (address, is_write) pairs, collecting
the result sequence. -/
def cache_run (c : cache_t) : List (Nat × Bool) → Option (cache_t × List Nat)
  | [] => some (c, [])
  | (a, w) :: rest =>
      match cache_access c a w with
      | none => none
      | some out =>
          match cache_run out.cache rest with
          | none => none
          | some (c', rs) => some (c', out.result :: rs)

/-! ## tlb.c -/

structure tlb_entry_t where
  valid : Bool := false
  dirty : Bool := false
  vpn : Nat := 0
  ppn : Nat := 0
deriving Repr, DecidableEq

instance : Inhabited tlb_entry_t := ⟨{}⟩

structure tlb_set_t where
  num_ways : Nat := 0
  entries : List tlb_entry_t := []
  lru : List Nat := []
deriving Repr, DecidableEq

instance : Inhabited tlb_set_t := ⟨{}⟩

structure tlb_config_t where
  num_entries : Nat
  associativity : assoc_type_t
deriving Repr, DecidableEq

structure tlb_t where
  num_entries : Nat
  associativity : assoc_type_t
  num_sets : Nat
  ways_per_set : Nat
  offset_bits : Nat
  index_bits : Nat
  tag_bits : Nat
  sets : List tlb_set_t
  accesses : Nat := 0
  hits : Nat := 0
  misses : Nat := 0
deriving Repr, DecidableEq

/-- init_tlb_lru from tlb.c: like init_lru_list (entries are already
zero-initialized by calloc, matching the default field values). -/
def init_tlb_lru (num_ways : Nat) : List Nat :=
  if num_ways ≤ 1 then [] else List.range num_ways

/-- tlb_lru_move_to_head from tlb.c (same shape as lru_move_to_head). -/
def tlb_lru_move_to_head (s : tlb_set_t) (i : Nat) : tlb_set_t :=
  if s.num_ways ≤ 1 ∨ s.lru.head? = some i then s
  else { s with lru := i :: s.lru.erase i }

/-- find_tlb_entry: first valid entry whose stored vpn equals the tag. -/
def find_tlb_entry (s : tlb_set_t) (vpn : Nat) : Option Nat :=
  firstIdxWhere (fun e => e.valid && e.vpn == vpn) s.entries

/-- find_invalid_tlb_entry. -/
def find_invalid_tlb_entry (s : tlb_set_t) : Option Nat :=
  firstIdxWhere (fun e => !e.valid) s.entries

/-- select_tlb_victim from tlb.c. -/
def select_tlb_victim (s : tlb_set_t) : Option Nat :=
  match find_invalid_tlb_entry s with
  | some i => some i
  | none => if s.num_ways == 1 then some 0 else s.lru.getLast?

/-- get_tlb_index from tlb.c. -/
def get_tlb_index (t : tlb_t) (vpn : Nat) : Nat :=
  if t.associativity = FULLY_ASSOC then 0
  else vpn &&& ((1 <<< t.index_bits) - 1)

/-- get_tlb_tag from tlb.c. -/
def get_tlb_tag (t : tlb_t) (vpn : Nat) : Nat :=
  vpn >>> t.index_bits

/-- tlb_init from tlb.c. -/
def tlb_init (config : tlb_config_t) : tlb_t :=
  let (num_sets, ways_per_set) :=
    match config.associativity with
    | DIRECT_MAPPED => (config.num_entries, 1)
    | FULLY_ASSOC => (1, config.num_entries)
    | TWO_WAY => (config.num_entries / 2, 2)
    | FOUR_WAY => (config.num_entries / 4, 4)
  let index_bits :=
    if config.associativity = FULLY_ASSOC then 0 else log2_uint32 num_sets
  { num_entries := config.num_entries
    associativity := config.associativity
    num_sets := num_sets
    ways_per_set := ways_per_set
    offset_bits := 12
    index_bits := index_bits
    tag_bits := 20 - index_bits
    sets := List.replicate num_sets
      { num_ways := ways_per_set
        entries := List.replicate ways_per_set {}
        lru := init_tlb_lru ways_per_set } }

/-- Result of tlb_lookup: the result code, the out-parameters *ppn and
*dirty (left at their incoming values, never read by the caller, on a
miss; modelled as 0/false there), and the updated TLB. -/
structure tlb_lookup_out where
  res : tlb_result_t
  ppn : Nat
  dirty : Bool
  tlb : tlb_t
deriving Repr, DecidableEq

/-- tlb_lookup from tlb.c. -/
def tlb_lookup (t0 : tlb_t) (vpn : Nat) : tlb_lookup_out :=
  let t := { t0 with accesses := t0.accesses + 1 }
  -- geometry is unchanged by the statistics update, so read it from t0
  let index := get_tlb_index t0 vpn
  let tag := get_tlb_tag t0 vpn
  let set := t0.sets.getD index default
  match find_tlb_entry set tag with
  | some i =>
      let e := set.entries.getD i default
      let set' := tlb_lru_move_to_head set i
      { res := TLB_HIT, ppn := e.ppn, dirty := e.dirty
        tlb := { t with hits := t.hits + 1, sets := t.sets.set index set' } }
  | none =>
      { res := TLB_MISS, ppn := 0, dirty := false
        tlb := { t with misses := t.misses + 1 } }

/-- tlb_insert from tlb.c.  none only when select_tlb_victim finds nothing
(garbage dereference in the C, unreachable for TLBs built by tlb_init). -/
def tlb_insert (t : tlb_t) (vpn ppn : Nat) : Option tlb_t :=
  let index := get_tlb_index t vpn
  let tag := get_tlb_tag t vpn
  let set := t.sets.getD index default
  match find_tlb_entry set tag with
  | some i =>
      let e := set.entries.getD i default
      let set' := tlb_lru_move_to_head
        { set with entries := set.entries.set i { e with ppn := ppn } } i
      some { t with sets := t.sets.set index set' }
  | none =>
      match select_tlb_victim set with
      | none => none
      | some v =>
          let newe : tlb_entry_t :=
            { valid := true, dirty := false, vpn := tag, ppn := ppn }
          let set' := tlb_lru_move_to_head
            { set with entries := set.entries.set v newe } v
          some { t with sets := t.sets.set index set' }

/-- tlb_set_dirty from tlb.c. -/
def tlb_set_dirty (t : tlb_t) (vpn : Nat) : tlb_t :=
  let index := get_tlb_index t vpn
  let tag := get_tlb_tag t vpn
  let set := t.sets.getD index default
  match find_tlb_entry set tag with
  | some i =>
      let e := set.entries.getD i default
      let set' := { set with entries := set.entries.set i { e with dirty := true } }
      { t with sets := t.sets.set index set' }
  | none => t

/-! ## ll.c

The page lists are modelled as lists of frame ids (head first).  The C
operates on intrusive nodes; for the duplicate-free lists maintained by
pagetable.c, unlinking a node is erasing its id. -/

def ll_insert_head (lst : List Nat) (f : Nat) : List Nat := f :: lst

def ll_remove_head (lst : List Nat) : Option Nat × List Nat :=
  match lst with
  | [] => (none, [])
  | f :: rest => (some f, rest)

def ll_remove_page (lst : List Nat) (f : Nat) : List Nat := lst.erase f

def ll_move_to_head (lst : List Nat) (f : Nat) : List Nat :=
  if lst = [] ∨ lst.head? = some f then lst else f :: lst.erase f

def ll_get_tail (lst : List Nat) : Option Nat := lst.getLast?

/-! ## pagetable.c -/

structure pte_t where
  present : Bool := false
  dirty : Bool := false
  ppn : Nat := 0
deriving Repr, DecidableEq

/-- The global state of pagetable.c.  page_table is the direct-indexed PTE
array (a total function: the C performs no bounds check); frame_pte f is
the page->pte back-reference of frame f, modelled as the VPN whose table
slot it points to (none = NULL). -/
structure ptstate where
  page_table : Nat → pte_t
  free_page_list : List Nat
  used_page_list : List Nat
  frame_pte : Nat → Option Nat
  pt_accesses : Nat
  page_faults : Nat
  page_faults_dirty : Nat

/-- Pointwise update of a function-modelled array. -/
def updf {α : Type} (g : Nat → α) (i : Nat) (v : α) : Nat → α :=
  fun j => if j = i then v else g j

/-- pagetable_init: all PTEs cleared; frames 255 down to 0 pushed on the
free list (so the free list reads 0,1,...,255); used list empty. -/
def pagetable_init : ptstate :=
  { page_table := fun _ => {}
    free_page_list := List.range NUM_PHYSICAL_PAGES
    used_page_list := []
    frame_pte := fun _ => none
    pt_accesses := 0
    page_faults := 0
    page_faults_dirty := 0 }

structure pt_lookup_out where
  res : pt_result_t
  ppn : Nat
  dirty : Bool
  st : ptstate

/-- pagetable_lookup from pagetable.c.  On a hit the owning frame
(frame_table[ppn], identified by its frame id) is moved to the head of the
used list. -/
def pagetable_lookup (s0 : ptstate) (vpn : Nat) : pt_lookup_out :=
  let s := { s0 with pt_accesses := s0.pt_accesses + 1 }
  -- the table itself is unchanged by the access counter update
  let e := s0.page_table vpn
  if e.present then
    { res := PT_HIT, ppn := e.ppn, dirty := e.dirty
      st := { s with used_page_list := ll_move_to_head s.used_page_list e.ppn } }
  else
    { res := PT_MISS, ppn := 0, dirty := false, st := s }

/-- get_victim_page from pagetable.c: pop the tail (LRU) of the used list
and mark its owning PTE not-present.  none when the used list is empty. -/
def get_victim_page (s : ptstate) : Option (Nat × ptstate) :=
  match ll_get_tail s.used_page_list with
  | none => none
  | some f =>
      let s1 := { s with used_page_list := ll_remove_page s.used_page_list f }
      let s2 :=
        match s1.frame_pte f with
        | some ovpn =>
            let tab := updf s1.page_table ovpn { s1.page_table ovpn with present := false }
            { s1 with page_table := tab }
        | none => s1
      some (f, s2)

/-- pagetable_handle_fault from pagetable.c.  none corresponds exactly to
the fatal both-lists-empty branch (fprintf + exit(1)). -/
def pagetable_handle_fault (s0 : ptstate) (vpn : Nat) : Option (Nat × ptstate) :=
  let s := { s0 with page_faults := s0.page_faults + 1 }
  let afterAlloc : Option (Nat × ptstate) :=
    match s.free_page_list with
    | f :: rest => some (f, { s with free_page_list := rest })
    | [] =>
        match get_victim_page s with
        | none => none
        | some (f, s1) =>
            let s2 :=
              match s1.frame_pte f with
              | some ovpn =>
                  if (s1.page_table ovpn).dirty then
                    let tab := updf s1.page_table ovpn { s1.page_table ovpn with dirty := false }
                    { s1 with
                      page_faults_dirty := s1.page_faults_dirty + 1
                      page_table := tab }
                  else s1
              | none => s1
            some (f, s2)
  match afterAlloc with
  | none => none
  | some (f, s1) =>
      let s2 := { s1 with
        page_table := updf s1.page_table vpn { present := true, dirty := false, ppn := f }
        frame_pte := updf s1.frame_pte f (some vpn)
        used_page_list := ll_insert_head s1.used_page_list f }
      some (f, s2)

/-- pagetable_set_dirty from pagetable.c. -/
def pagetable_set_dirty (s : ptstate) (vpn : Nat) : ptstate :=
  if (s.page_table vpn).present then
    let tab := updf s.page_table vpn { s.page_table vpn with dirty := true }
    { s with page_table := tab }
  else s

/-- The page-table operations main.c can trigger between init and
teardown. -/
inductive pt_op where
  | look : Nat → pt_op
  | fault : Nat → pt_op
  | mark : Nat → pt_op

/-- One page-table operation; none is the fatal allocator branch. -/
def pt_step (s : ptstate) : pt_op → Option ptstate
  | .look vpn => some (pagetable_lookup s vpn).st
  | .fault vpn => (pagetable_handle_fault s vpn).map (·.2)
  | .mark vpn => some (pagetable_set_dirty s vpn)

def pt_run_from (s : ptstate) : List pt_op → Option ptstate
  | [] => some s
  | o :: os =>
      match pt_step s o with
      | none => none
      | some s' => pt_run_from s' os

/-- Any sequence of page-table operations starting from pagetable_init. -/
def pt_run (ops : List pt_op) : Option ptstate := pt_run_from pagetable_init ops

/-- One page-table consultation as main.c performs it on a TLB miss:
pagetable_lookup, then pagetable_handle_fault when the page is absent. -/
def pt_access (s : ptstate) (vpn : Nat) : Option ptstate :=
  let p := pagetable_lookup s vpn
  if p.res = PT_HIT then some p.st
  else (pagetable_handle_fault p.st vpn).map (·.2)

def pt_access_run (s : ptstate) : List Nat → Option ptstate
  | [] => some s
  | v :: vs =>
      match pt_access s v with
      | none => none
      | some s' => pt_access_run s' vs

/-! ## multilevel_cache.c -/

structure multilevel_cache_t where
  num_levels : Nat
  levels : List cache_t
  level_accesses : List Nat
deriving Repr, DecidableEq

/-- encode_hit_level from multilevel_cache.c. -/
def encode_hit_level (level : Nat) : Nat := CACHE_HIT_L1 + level

/-- Increment level_accesses[i]. -/
def bump_level (l : List Nat) (i : Nat) : List Nat := l.set i (l.getD i 0 + 1)

/-- The loop body of multilevel_cache_access: walk the levels from the
given level number; each level with number > 0 has its level_accesses
counter incremented when reached; return on the first hit. -/
def mlc_loop (addr : Nat) (is_write : Bool) :
    List cache_t → Nat → List Nat → Option (Nat × List cache_t × List Nat)
  | [], _, accs => some (CACHE_MISS_ALL_LEVELS, [], accs)
  | c :: rest, level, accs =>
      let accs1 := if level > 0 then bump_level accs level else accs
      match cache_access c addr is_write with
      | none => none
      | some out =>
          if out.result = CACHE_HIT then
            some (encode_hit_level level, out.cache :: rest, accs1)
          else
            match mlc_loop addr is_write rest (level + 1) accs1 with
            | none => none
            | some (r, rest', accs') => some (r, out.cache :: rest', accs')

/-- multilevel_cache_access from multilevel_cache.c. -/
def multilevel_cache_access (mlc : multilevel_cache_t) (addr : Nat)
    (is_write : Bool) : Option (Nat × multilevel_cache_t) :=
  match mlc_loop addr is_write mlc.levels 0 mlc.level_accesses with
  | none => none
  | some (r, lv, accs) =>
      some (r, { mlc with levels := lv, level_accesses := accs })

/-- The per-level access count reported by multilevel_cache_print_stats:
level 0 prints the level-0 cache's own accesses counter, deeper levels
print level_accesses[i]. -/
def mlc_reported_accesses (mlc : multilevel_cache_t) (i : Nat) : Nat :=
  if i = 0 then (mlc.levels.getD 0 default).accesses
  else mlc.level_accesses.getD i 0

/-! ## main.c -/

/-- get_vpn from main.c: bits 31..12 of the virtual address. -/
def get_vpn (vaddr : Nat) : Nat := vaddr >>> 12

/-- get_offset from main.c: bits 11..0. -/
def get_offset (vaddr : Nat) : Nat := vaddr &&& 0xFFF

/-- make_paddr from main.c. -/
def make_paddr (ppn offset : Nat) : Nat := (ppn <<< 12) ||| offset

structure sys_state where
  tlb : tlb_t
  pt : ptstate

structure xlate_out where
  paddr : Nat
  tlb_res : tlb_result_t
  pt_res : pt_result_t
  sys : sys_state

/-- translate_address from main.c.  On a TLB hit, pt_res is set to PT_HIT
without consulting the page table for the translation, but
pagetable_lookup is still called (its result discarded) to refresh the
page-table LRU.  On a TLB miss the page table is looked up, a fault is
handled on PT_MISS, and the TLB is refilled.  Writes set both dirty bits
at the end. -/
def translate_address (sys : sys_state) (vaddr : Nat) (is_write : Bool) :
    Option xlate_out :=
  let vpn := get_vpn vaddr
  let offset := get_offset vaddr
  let t := tlb_lookup sys.tlb vpn
  if t.res = TLB_HIT then
    let p := pagetable_lookup sys.pt vpn
    let sys1 : sys_state := ⟨t.tlb, p.st⟩
    let sys2 : sys_state :=
      if is_write then ⟨tlb_set_dirty sys1.tlb vpn, pagetable_set_dirty sys1.pt vpn⟩
      else sys1
    some ⟨make_paddr t.ppn offset, TLB_HIT, PT_HIT, sys2⟩
  else
    let p := pagetable_lookup sys.pt vpn
    let faulted : Option (Nat × ptstate) :=
      if p.res = PT_MISS then pagetable_handle_fault p.st vpn
      else some (p.ppn, p.st)
    match faulted with
    | none => none
    | some (ppn, pt2) =>
        match tlb_insert t.tlb vpn ppn with
        | none => none
        | some tlb2 =>
            let sys1 : sys_state := ⟨tlb2, pt2⟩
            let sys2 : sys_state :=
              if is_write then ⟨tlb_set_dirty sys1.tlb vpn, pagetable_set_dirty sys1.pt vpn⟩
              else sys1
            some ⟨make_paddr ppn offset, TLB_MISS, p.res, sys2⟩

/-- The page-table column of a verbose line (print_verbose in main.c):
when the TLB hit, the page table is reported as not consulted. -/
inductive pt_report where
  | not_consulted
  | page_hit
  | page_fault
deriving Repr, DecidableEq

def report_pt (tr : tlb_result_t) (pr : pt_result_t) : pt_report :=
  if tr = TLB_HIT then .not_consulted
  else if pr = PT_HIT then .page_hit
  else .page_fault

/-! ## Variant of cache_access without recency-list maintenance

This definition exists only for the dead-code-equivalence claim about
direct-mapped caches: it follows the spec's words in omitting every
recency-list update, and is otherwise identical to cache_access. -/

def cache_access_without_lru (c0 : cache_t) (addr : Nat) (is_write : Bool) :
    Option cache_access_out :=
  let c := { c0 with
    accesses := c0.accesses + 1
    reads := if is_write then c0.reads else c0.reads + 1
    writes := if is_write then c0.writes + 1 else c0.writes }
  let index := cache_get_index c0 addr
  let tag := cache_get_tag c0 addr
  let set := c0.sets.getD index default
  match find_line set tag with
  | some i =>
      let line := set.lines.getD i default
      let line' := if is_write then { line with dirty := true } else line
      let set' := { set with lines := set.lines.set i line' }
      some { result := CACHE_HIT
             cache := { c with
               hits := c.hits + 1
               read_hits := if is_write then c.read_hits else c.read_hits + 1
               write_hits := if is_write then c.write_hits + 1 else c.write_hits
               sets := c.sets.set index set' }
             writebacks := [] }
  | none =>
      match select_victim set with
      | none => none
      | some v =>
          let victim := set.lines.getD v default
          let wbs :=
            if victim.valid && victim.dirty then
              [(victim.tag <<< (c.offset_bits + c.index_bits)) |||
               (index <<< c.offset_bits)]
            else []
          let newline : cache_line_t := { valid := true, dirty := is_write, tag := tag }
          let set' := { set with lines := set.lines.set v newline }
          some { result := CACHE_MISS
                 cache := { c with
                   misses := c.misses + 1
                   sets := c.sets.set index set' }
                 writebacks := wbs }

/-- Fold of cache_access_without_lru over a trace. -/
def cache_run_without_lru (c : cache_t) :
    List (Nat × Bool) → Option (cache_t × List Nat)
  | [] => some (c, [])
  | (a, w) :: rest =>
      match cache_access_without_lru c a w with
      | none => none
      | some out =>
          match cache_run_without_lru out.cache rest with
          | none => none
          | some (c', rs) => some (c', out.result :: rs)

/-- Witness fixture: a one-line direct-mapped cache holding a clean line
with tag 0. -/
def wcacheClean : cache_t :=
  ⟨16, 16, DIRECT_MAPPED, 1, 1, 4, 0, 28,
    [⟨1, [⟨true, false, 0⟩], []⟩], 0, 0, 0, 0, 0, 0, 0⟩

/-- Witness fixture: a one-line direct-mapped cache holding a dirty line
with tag 7. -/
def wcacheDirty : cache_t :=
  ⟨16, 16, DIRECT_MAPPED, 1, 1, 4, 0, 28,
    [⟨1, [⟨true, true, 7⟩], []⟩], 0, 0, 0, 0, 0, 0, 0⟩

instance : Inhabited cache_access_out := ⟨⟨0, default, []⟩⟩

/-- Witness fixture: a direct-mapped cache of two 16-byte blocks. -/
def wdm : cache_t := cache_init ⟨32, 16, DIRECT_MAPPED⟩

/-- Witness fixtures: a one-block L1 and a two-block L2. -/
def wl1 : cache_t := cache_init ⟨16, 16, FULLY_ASSOC⟩

def wl2 : cache_t := cache_init ⟨32, 16, FULLY_ASSOC⟩

def wmlc : multilevel_cache_t := ⟨2, [wl1, wl2], [0, 0]⟩

/-- Witness fixture: the system state right after initialization with a
4-entry direct-mapped TLB (the task-1 configuration -T 4 -L 1). -/
def wsys : sys_state := ⟨tlb_init ⟨4, DIRECT_MAPPED⟩, pagetable_init⟩

/-! ## Validity of a cache configuration (for the geometry claim)

size = 2^a, block_size = 2^b, both powers of two; a ≤ 32 keeps the
address fields inside a 32-bit address; the extra slack for 2-way/4-way
is the divisibility constraint size % (block_size * ways) == 0. -/
def valid_geometry (a b : Nat) (assoc : assoc_type_t) : Prop :=
  a ≤ 32 ∧
    b + (if assoc = TWO_WAY then 1 else if assoc = FOUR_WAY then 2 else 0) ≤ a

instance (a b : Nat) (assoc : assoc_type_t) :
    Decidable (valid_geometry a b assoc) := by
  unfold valid_geometry; infer_instance

/-- A fully-associative cache of N 16-byte blocks, as cache_init builds
it (size = 16 * N bytes). -/
def faInit (N : Nat) : cache_t := cache_init ⟨16 * N, 16, FULLY_ASSOC⟩

/-- The line array of the single set of a fully-associative cache of
capacity N after reading tags ts into the first ts.length ways. -/
def faLines (ts : List Nat) (N : Nat) : List cache_line_t :=
  ts.map (fun x => ⟨true, false, x⟩)
    ++ List.replicate (N - ts.length) ⟨false, false, 0⟩

/-- The recency list of that set: ways k-1 .. 0 (most recent first)
followed by the never-touched ways k .. N-1 in initialization order; no
list at all when the set is direct-mapped. -/
def faLru (N k : Nat) : List Nat :=
  if N ≤ 1 then [] else (List.range k).reverse ++ List.range' k (N - k)

/-- The whole cache state after reading ts.length distinct fresh tags
into a fully-associative cache of capacity N. -/
def faCache (N : Nat) (ts : List Nat) : cache_t :=
  ⟨16 * N, 16, FULLY_ASSOC, 1, N, 4, 0, 28,
    [⟨N, faLines ts N, faLru N ts.length⟩],
    ts.length, 0, ts.length, ts.length, 0, 0, 0⟩

/-- Well-formedness of the page-table state: the free and used lists are
duplicate-free lists of frame ids below NUM_PHYSICAL_PAGES, every frame
id below NUM_PHYSICAL_PAGES is in exactly one of them, and the frame
recorded in any present PTE is on the used list. -/
def pt_wf (s : ptstate) : Prop :=
  s.free_page_list.Nodup ∧
  s.used_page_list.Nodup ∧
  (∀ f ∈ s.free_page_list, f < NUM_PHYSICAL_PAGES) ∧
  (∀ f ∈ s.used_page_list, f < NUM_PHYSICAL_PAGES) ∧
  (∀ f, f < NUM_PHYSICAL_PAGES →
    (f ∈ s.free_page_list ↔ f ∉ s.used_page_list)) ∧
  (∀ vpn, (s.page_table vpn).present = true →
    (s.page_table vpn).ppn ∈ s.used_page_list)

/-! ## Helper lemmas -/

theorem log2_aux_pow (k : Nat) :
    ∀ fuel, 2 ^ k ≤ fuel → log2_aux fuel (2 ^ k) = k := by
  induction k with
  | zero =>
      intro fuel h
      cases fuel with
      | zero => simp at h
      | succ f => simp [log2_aux]
  | succ k ih =>
      intro fuel h
      have h2 : 2 ≤ 2 ^ (k + 1) := by
        calc 2 = 2 ^ 1 := rfl
        _ ≤ 2 ^ (k + 1) := Nat.pow_le_pow_right (by omega) (by omega)
      cases fuel with
      | zero => omega
      | succ f =>
        have hle : ¬ 2 ^ (k + 1) ≤ 1 := by omega
        have hdiv : 2 ^ (k + 1) / 2 = 2 ^ k := by
          rw [pow_succ, Nat.mul_div_cancel _ (by omega)]
        have hfk : 2 ^ k ≤ f := by
          have h1 : 1 ≤ 2 ^ k := Nat.one_le_two_pow
          have h3 : 2 ^ (k + 1) = 2 * 2 ^ k := by ring
          omega
        simp only [log2_aux, if_neg hle, hdiv, ih f hfk]
        omega

theorem log2_uint32_pow (k : Nat) : log2_uint32 (2 ^ k) = k :=
  log2_aux_pow k _ le_rfl

theorem firstIdxWhere_eq_none {α : Type} (p : α → Bool) (l : List α) :
    firstIdxWhere p l = none ↔ ∀ x ∈ l, p x = false := by
  induction l with
  | nil => simp [firstIdxWhere]
  | cons x xs ih =>
      by_cases h : p x = true
      · simp [firstIdxWhere, h]
      · simp only [Bool.not_eq_true] at h
        simp [firstIdxWhere, h, Option.map_eq_none', ih]

theorem firstIdxWhere_spec {α : Type} (p : α → Bool) (d : α) :
    ∀ (l : List α) (i : Nat), firstIdxWhere p l = some i →
      i < l.length ∧ p (l.getD i d) = true ∧
        ∀ j, j < i → p (l.getD j d) = false := by
  intro l
  induction l with
  | nil => intro i h; simp [firstIdxWhere] at h
  | cons x xs ih =>
      intro i h
      by_cases hx : p x = true
      · simp [firstIdxWhere, hx] at h
        subst h
        exact ⟨by simp, by simpa using hx, fun j hj => by omega⟩
      · simp only [Bool.not_eq_true] at hx
        simp [firstIdxWhere, hx, Option.map_eq_some'] at h
        obtain ⟨i', hi', rfl⟩ := h
        obtain ⟨hlt, hp, hprev⟩ := ih i' hi'
        refine ⟨by simpa using hlt, by simpa using hp, ?_⟩
        intro j hj
        match j with
        | 0 => simpa using hx
        | j' + 1 => simpa using hprev j' (by omega)

theorem firstIdxWhere_isSome {α : Type} (p : α → Bool) (l : List α) (x : α)
    (hx : x ∈ l) (hp : p x = true) : ∃ i, firstIdxWhere p l = some i := by
  cases h : firstIdxWhere p l with
  | some i => exact ⟨i, rfl⟩
  | none =>
      rw [firstIdxWhere_eq_none] at h
      rw [h x hx] at hp
      cases hp

theorem firstIdxWhere_append_none {α : Type} (p : α → Bool) (l1 l2 : List α)
    (h : firstIdxWhere p l1 = none) :
    firstIdxWhere p (l1 ++ l2) = (firstIdxWhere p l2).map (· + l1.length) := by
  induction l1 with
  | nil =>
      cases h2 : firstIdxWhere p l2 <;> simp [h2]
  | cons x xs ih =>
      have hx : p x = false := by
        by_contra hc
        simp only [Bool.not_eq_false] at hc
        simp [firstIdxWhere, hc] at h
      have hxs : firstIdxWhere p xs = none := by
        simp [firstIdxWhere, hx, Option.map_eq_none'] at h
        exact h
      rw [List.cons_append]
      simp only [firstIdxWhere, hx, Bool.false_eq_true, if_false, ih hxs]
      cases h2 : firstIdxWhere p l2 with
      | none => simp
      | some i => simp; omega

theorem getD_set_self {α : Type} (l : List α) (i : Nat) (x d : α)
    (h : i < l.length) : (l.set i x).getD i d = x := by
  simp [List.getD_eq_getElem?_getD, List.getElem?_set_self h]

theorem getD_set_ne {α : Type} (l : List α) {i j : Nat} (x d : α)
    (h : i ≠ j) : (l.set i x).getD j d = l.getD j d := by
  simp [List.getD_eq_getElem?_getD, List.getElem?_set_ne h]

/-! ## C1: cache_init geometry -/

/-- C1: for every valid cache configuration (size = 2^a, block_size = 2^b
powers of two with the divisibility constraints of the chosen
associativity), the cache built by cache_init satisfies
num_sets * ways_per_set = size / block_size, offset_bits = log2
block_size, offset_bits + index_bits + tag_bits = 32, and index_bits = 0
for fully-associative caches. -/
theorem C1_cache_init_geometry (a b : Nat) (assoc : assoc_type_t)
    (h : valid_geometry a b assoc) :
    (cache_init ⟨2 ^ a, 2 ^ b, assoc⟩).num_sets *
        (cache_init ⟨2 ^ a, 2 ^ b, assoc⟩).ways_per_set = 2 ^ a / 2 ^ b ∧
    (cache_init ⟨2 ^ a, 2 ^ b, assoc⟩).offset_bits = b ∧
    (cache_init ⟨2 ^ a, 2 ^ b, assoc⟩).offset_bits +
        (cache_init ⟨2 ^ a, 2 ^ b, assoc⟩).index_bits +
        (cache_init ⟨2 ^ a, 2 ^ b, assoc⟩).tag_bits = 32 ∧
    (assoc = FULLY_ASSOC → (cache_init ⟨2 ^ a, 2 ^ b, assoc⟩).index_bits = 0) := by
  obtain ⟨h32, hdiv⟩ := h
  cases assoc with
  | DIRECT_MAPPED =>
      have hb : b ≤ a := by simpa using hdiv
      have hquot : (2 : Nat) ^ a / 2 ^ b = 2 ^ (a - b) :=
        Nat.pow_div hb (by omega)
      have hn : (cache_init ⟨2 ^ a, 2 ^ b, DIRECT_MAPPED⟩).num_sets
          = 2 ^ a / 2 ^ b := rfl
      have hw : (cache_init ⟨2 ^ a, 2 ^ b, DIRECT_MAPPED⟩).ways_per_set = 1 := rfl
      have ho : (cache_init ⟨2 ^ a, 2 ^ b, DIRECT_MAPPED⟩).offset_bits
          = log2_uint32 (2 ^ b) := rfl
      have hi : (cache_init ⟨2 ^ a, 2 ^ b, DIRECT_MAPPED⟩).index_bits
          = log2_uint32 (2 ^ a / 2 ^ b) := rfl
      have ht : (cache_init ⟨2 ^ a, 2 ^ b, DIRECT_MAPPED⟩).tag_bits
          = 32 - log2_uint32 (2 ^ b) - log2_uint32 (2 ^ a / 2 ^ b) := rfl
      rw [hn, hw, ho, hi, ht, hquot, log2_uint32_pow, log2_uint32_pow]
      refine ⟨by omega, rfl, by omega, by intro hc; cases hc⟩
  | FULLY_ASSOC =>
      have hb : b ≤ a := by simpa using hdiv
      have hn : (cache_init ⟨2 ^ a, 2 ^ b, FULLY_ASSOC⟩).num_sets = 1 := rfl
      have hw : (cache_init ⟨2 ^ a, 2 ^ b, FULLY_ASSOC⟩).ways_per_set
          = 2 ^ a / 2 ^ b := rfl
      have ho : (cache_init ⟨2 ^ a, 2 ^ b, FULLY_ASSOC⟩).offset_bits
          = log2_uint32 (2 ^ b) := rfl
      have hi : (cache_init ⟨2 ^ a, 2 ^ b, FULLY_ASSOC⟩).index_bits = 0 := rfl
      have ht : (cache_init ⟨2 ^ a, 2 ^ b, FULLY_ASSOC⟩).tag_bits
          = 32 - log2_uint32 (2 ^ b) - 0 := rfl
      rw [hn, hw, ho, hi, ht, log2_uint32_pow]
      refine ⟨by omega, rfl, by omega, fun _ => rfl⟩
  | TWO_WAY =>
      have hb : b + 1 ≤ a := by simpa using hdiv
      have hmul : (2 : Nat) ^ b * 2 = 2 ^ (b + 1) := by ring
      have hquot : (2 : Nat) ^ a / 2 ^ (b + 1) = 2 ^ (a - (b + 1)) :=
        Nat.pow_div hb (by omega)
      have hquot2 : (2 : Nat) ^ a / 2 ^ b = 2 ^ (a - b) :=
        Nat.pow_div (by omega) (by omega)
      have hprod : (2 : Nat) ^ (a - (b + 1)) * 2 = 2 ^ (a - b) := by
        rw [← pow_succ]
        congr 1
        omega
      have hn : (cache_init ⟨2 ^ a, 2 ^ b, TWO_WAY⟩).num_sets
          = 2 ^ a / (2 ^ b * 2) := rfl
      have hw : (cache_init ⟨2 ^ a, 2 ^ b, TWO_WAY⟩).ways_per_set = 2 := rfl
      have ho : (cache_init ⟨2 ^ a, 2 ^ b, TWO_WAY⟩).offset_bits
          = log2_uint32 (2 ^ b) := rfl
      have hi : (cache_init ⟨2 ^ a, 2 ^ b, TWO_WAY⟩).index_bits
          = log2_uint32 (2 ^ a / (2 ^ b * 2)) := rfl
      have ht : (cache_init ⟨2 ^ a, 2 ^ b, TWO_WAY⟩).tag_bits
          = 32 - log2_uint32 (2 ^ b) - log2_uint32 (2 ^ a / (2 ^ b * 2)) := rfl
      rw [hn, hw, ho, hi, ht, hmul, hquot, hquot2, log2_uint32_pow,
        log2_uint32_pow]
      refine ⟨hprod, rfl, by omega, by intro hc; cases hc⟩
  | FOUR_WAY =>
      have hb : b + 2 ≤ a := by simpa using hdiv
      have hmul : (2 : Nat) ^ b * 4 = 2 ^ (b + 2) := by ring
      have hquot : (2 : Nat) ^ a / 2 ^ (b + 2) = 2 ^ (a - (b + 2)) :=
        Nat.pow_div hb (by omega)
      have hquot2 : (2 : Nat) ^ a / 2 ^ b = 2 ^ (a - b) :=
        Nat.pow_div (by omega) (by omega)
      have hprod : (2 : Nat) ^ (a - (b + 2)) * 4 = 2 ^ (a - b) := by
        have h4 : (4 : Nat) = 2 ^ 2 := rfl
        rw [h4, ← pow_add]
        congr 1
        omega
      have hn : (cache_init ⟨2 ^ a, 2 ^ b, FOUR_WAY⟩).num_sets
          = 2 ^ a / (2 ^ b * 4) := rfl
      have hw : (cache_init ⟨2 ^ a, 2 ^ b, FOUR_WAY⟩).ways_per_set = 4 := rfl
      have ho : (cache_init ⟨2 ^ a, 2 ^ b, FOUR_WAY⟩).offset_bits
          = log2_uint32 (2 ^ b) := rfl
      have hi : (cache_init ⟨2 ^ a, 2 ^ b, FOUR_WAY⟩).index_bits
          = log2_uint32 (2 ^ a / (2 ^ b * 4)) := rfl
      have ht : (cache_init ⟨2 ^ a, 2 ^ b, FOUR_WAY⟩).tag_bits
          = 32 - log2_uint32 (2 ^ b) - log2_uint32 (2 ^ a / (2 ^ b * 4)) := rfl
      rw [hn, hw, ho, hi, ht, hmul, hquot, hquot2, log2_uint32_pow,
        log2_uint32_pow]
      refine ⟨hprod, rfl, by omega, by intro hc; cases hc⟩

/-- Witness for C1 at a concrete valid configuration
(size 1024 = 2^10, block 16 = 2^4, two-way). -/
theorem C1_cache_init_geometry_witness :
    (cache_init ⟨2 ^ 10, 2 ^ 4, TWO_WAY⟩).num_sets *
        (cache_init ⟨2 ^ 10, 2 ^ 4, TWO_WAY⟩).ways_per_set = 2 ^ 10 / 2 ^ 4 ∧
    (cache_init ⟨2 ^ 10, 2 ^ 4, TWO_WAY⟩).offset_bits = 4 ∧
    (cache_init ⟨2 ^ 10, 2 ^ 4, TWO_WAY⟩).offset_bits +
        (cache_init ⟨2 ^ 10, 2 ^ 4, TWO_WAY⟩).index_bits +
        (cache_init ⟨2 ^ 10, 2 ^ 4, TWO_WAY⟩).tag_bits = 32 ∧
    (TWO_WAY = FULLY_ASSOC →
      (cache_init ⟨2 ^ 10, 2 ^ 4, TWO_WAY⟩).index_bits = 0) :=
  C1_cache_init_geometry 10 4 TWO_WAY (by decide)

/-! ## C2: victim selection -/

/-- C2: in every cache set and every TLB set, victim selection on a miss
returns the lowest-index invalid slot when some slot is invalid;
otherwise, when the set has exactly one way, the sole slot (index 0);
otherwise the tail of the set's recency list. -/
theorem C2_victim_selection (s : cache_set_t) (u : tlb_set_t) :
    ((∃ l ∈ s.lines, l.valid = false) →
      ∃ i, select_victim s = some i ∧ i < s.lines.length ∧
        (s.lines.getD i default).valid = false ∧
        ∀ j, j < i → (s.lines.getD j default).valid = true) ∧
    ((∀ l ∈ s.lines, l.valid = true) → s.num_ways = 1 →
      select_victim s = some 0) ∧
    ((∀ l ∈ s.lines, l.valid = true) → s.num_ways ≠ 1 →
      select_victim s = s.lru.getLast?) ∧
    ((∃ e ∈ u.entries, e.valid = false) →
      ∃ i, select_tlb_victim u = some i ∧ i < u.entries.length ∧
        (u.entries.getD i default).valid = false ∧
        ∀ j, j < i → (u.entries.getD j default).valid = true) ∧
    ((∀ e ∈ u.entries, e.valid = true) → u.num_ways = 1 →
      select_tlb_victim u = some 0) ∧
    ((∀ e ∈ u.entries, e.valid = true) → u.num_ways ≠ 1 →
      select_tlb_victim u = u.lru.getLast?) := by
  refine ⟨?_, ?_, ?_, ?_, ?_, ?_⟩
  · rintro ⟨l, hl, hv⟩
    obtain ⟨i, hi⟩ := firstIdxWhere_isSome (fun l => !l.valid) s.lines l hl
      (by simp [hv])
    obtain ⟨hlt, hp, hprev⟩ := firstIdxWhere_spec (fun l => !l.valid) default
      s.lines i hi
    refine ⟨i, ?_, hlt, by simpa using hp, fun j hj => by simpa using hprev j hj⟩
    simp [select_victim, find_invalid_line, hi]
  · intro hall h1
    have hnone : find_invalid_line s = none := by
      rw [find_invalid_line, firstIdxWhere_eq_none]
      intro x hx
      simp [hall x hx]
    simp [select_victim, hnone, h1]
  · intro hall hne
    have hnone : find_invalid_line s = none := by
      rw [find_invalid_line, firstIdxWhere_eq_none]
      intro x hx
      simp [hall x hx]
    have hbeq : (s.num_ways == 1) = false := by
      simpa using hne
    simp [select_victim, hnone, hbeq]
  · rintro ⟨e, he, hv⟩
    obtain ⟨i, hi⟩ := firstIdxWhere_isSome (fun e => !e.valid) u.entries e he
      (by simp [hv])
    obtain ⟨hlt, hp, hprev⟩ := firstIdxWhere_spec (fun e => !e.valid) default
      u.entries i hi
    refine ⟨i, ?_, hlt, by simpa using hp, fun j hj => by simpa using hprev j hj⟩
    simp [select_tlb_victim, find_invalid_tlb_entry, hi]
  · intro hall h1
    have hnone : find_invalid_tlb_entry u = none := by
      rw [find_invalid_tlb_entry, firstIdxWhere_eq_none]
      intro x hx
      simp [hall x hx]
    simp [select_tlb_victim, hnone, h1]
  · intro hall hne
    have hnone : find_invalid_tlb_entry u = none := by
      rw [find_invalid_tlb_entry, firstIdxWhere_eq_none]
      intro x hx
      simp [hall x hx]
    have hbeq : (u.num_ways == 1) = false := by
      simpa using hne
    simp [select_tlb_victim, hnone, hbeq]

/-- Witness for C2: a 2-way cache set whose way 1 is invalid, and a 2-way
TLB set whose way 1 is invalid. -/
theorem C2_victim_selection_witness :
    (∃ i, select_victim ⟨2, [⟨true, false, 7⟩, ⟨false, false, 0⟩], [0, 1]⟩
        = some i ∧
      i < ([⟨true, false, 7⟩, ⟨false, false, 0⟩] : List cache_line_t).length ∧
      (([⟨true, false, 7⟩, ⟨false, false, 0⟩] : List cache_line_t).getD i
        default).valid = false ∧
      ∀ j, j < i →
        (([⟨true, false, 7⟩, ⟨false, false, 0⟩] : List cache_line_t).getD j
          default).valid = true) ∧
    (∃ i, select_tlb_victim ⟨2, [⟨true, false, 3, 4⟩, ⟨false, false, 0, 0⟩], [0, 1]⟩
        = some i ∧
      i < ([⟨true, false, 3, 4⟩, ⟨false, false, 0, 0⟩] : List tlb_entry_t).length ∧
      (([⟨true, false, 3, 4⟩, ⟨false, false, 0, 0⟩] : List tlb_entry_t).getD i
        default).valid = false ∧
      ∀ j, j < i →
        (([⟨true, false, 3, 4⟩, ⟨false, false, 0, 0⟩] : List tlb_entry_t).getD j
          default).valid = true) :=
  ⟨(C2_victim_selection ⟨2, [⟨true, false, 7⟩, ⟨false, false, 0⟩], [0, 1]⟩
      ⟨2, [⟨true, false, 3, 4⟩, ⟨false, false, 0, 0⟩], [0, 1]⟩).1
      ⟨⟨false, false, 0⟩, by simp, rfl⟩,
   (C2_victim_selection ⟨2, [⟨true, false, 7⟩, ⟨false, false, 0⟩], [0, 1]⟩
      ⟨2, [⟨true, false, 3, 4⟩, ⟨false, false, 0, 0⟩], [0, 1]⟩).2.2.2.1
      ⟨⟨false, false, 0, 0⟩, by simp, rfl⟩⟩

theorem lru_move_to_head_lines (s : cache_set_t) (i : Nat) :
    (lru_move_to_head s i).lines = s.lines := by
  unfold lru_move_to_head
  split <;> rfl

theorem lru_move_to_head_num_ways (s : cache_set_t) (i : Nat) :
    (lru_move_to_head s i).num_ways = s.num_ways := by
  unfold lru_move_to_head
  split <;> rfl

/-! ## C3: write-back / write-allocate policy -/

/-- C3: under the write-back/write-allocate policy of cache_access, a
write hit sets the hit line's dirty bit (with no write-back signal); on a
miss the victim slot is overwritten with (valid, dirty = is_write, tag) -
so a write miss installs dirty from the start, a read miss installs
clean, and the installed line never carries over the evicted line's dirty
bit - and the write-back signal list is exactly one element (the victim's
pre-overwrite block address) when the victim was valid and dirty, and
empty otherwise. -/
theorem C3_write_back_allocate (c : cache_t) (addr : Nat) (w : Bool)
    (hidx : cache_get_index c addr < c.sets.length) :
    (∀ i, find_line (c.sets.getD (cache_get_index c addr) default)
        (cache_get_tag c addr) = some i →
      ∃ out, cache_access c addr true = some out ∧ out.result = CACHE_HIT ∧
        ((out.cache.sets.getD (cache_get_index c addr) default).lines.getD i
          default).dirty = true ∧
        out.writebacks = []) ∧
    (find_line (c.sets.getD (cache_get_index c addr) default)
        (cache_get_tag c addr) = none →
      ∀ v, select_victim (c.sets.getD (cache_get_index c addr) default) = some v →
        v < (c.sets.getD (cache_get_index c addr) default).lines.length →
        ∃ out, cache_access c addr w = some out ∧ out.result = CACHE_MISS ∧
          ((out.cache.sets.getD (cache_get_index c addr) default).lines.getD v
            default)
            = ⟨true, w, cache_get_tag c addr⟩ ∧
          out.writebacks =
            (if ((c.sets.getD (cache_get_index c addr) default).lines.getD v
                  default).valid &&
                ((c.sets.getD (cache_get_index c addr) default).lines.getD v
                  default).dirty then
              [(((c.sets.getD (cache_get_index c addr) default).lines.getD v
                  default).tag <<< (c.offset_bits + c.index_bits)) |||
                (cache_get_index c addr <<< c.offset_bits)]
            else [])) := by
  constructor
  · intro i hfind
    have hlt : i < (c.sets.getD (cache_get_index c addr) default).lines.length :=
      (firstIdxWhere_spec _ default _ i hfind).1
    simp only [cache_access, hfind]
    refine ⟨_, rfl, rfl, ?_, rfl⟩
    simp only [getD_set_self c.sets _ _ _ hidx, lru_move_to_head_lines,
      getD_set_self _ _ _ _ hlt]
    simp
  · intro hnone v hv hvlt
    simp only [cache_access, hnone, hv]
    refine ⟨_, rfl, rfl, ?_, rfl⟩
    simp only [getD_set_self c.sets _ _ _ hidx, lru_move_to_head_lines,
      getD_set_self _ _ _ _ hvlt]

/-- Witness for C3: a write hit on a one-line direct-mapped cache holding
tag 0, and a read miss over a valid dirty victim in the same shape of
cache (exactly one write-back signal, installed line clean). -/
theorem C3_write_back_allocate_witness :
    (∃ out, cache_access wcacheClean 0 true = some out ∧
      out.result = CACHE_HIT ∧
      ((out.cache.sets.getD (cache_get_index wcacheClean 0) default).lines.getD 0
        default).dirty = true ∧
      out.writebacks = []) ∧
    (∃ out, cache_access wcacheDirty 0 false = some out ∧
      out.result = CACHE_MISS ∧
      ((out.cache.sets.getD (cache_get_index wcacheDirty 0) default).lines.getD 0
        default)
        = ⟨true, false, cache_get_tag wcacheDirty 0⟩ ∧
      out.writebacks =
        (if ((wcacheDirty.sets.getD (cache_get_index wcacheDirty 0)
                default).lines.getD 0 default).valid &&
            ((wcacheDirty.sets.getD (cache_get_index wcacheDirty 0)
                default).lines.getD 0 default).dirty then
          [(((wcacheDirty.sets.getD (cache_get_index wcacheDirty 0)
                default).lines.getD 0 default).tag <<<
              (wcacheDirty.offset_bits + wcacheDirty.index_bits)) |||
            (cache_get_index wcacheDirty 0 <<< wcacheDirty.offset_bits)]
        else [])) :=
  ⟨(C3_write_back_allocate wcacheClean 0 true (by decide)).1 0 (by decide),
   (C3_write_back_allocate wcacheDirty 0 false (by decide)).2 (by decide) 0
      (by decide) (by decide)⟩

/-! ## C9: direct-mapped caches and the recency list -/

theorem lru_move_to_head_of_ways_le_one (s : cache_set_t) (i : Nat)
    (h : s.num_ways ≤ 1) : lru_move_to_head s i = s := by
  unfold lru_move_to_head
  rw [if_pos (Or.inl h)]

theorem getD_num_ways_le_one (c : cache_t)
    (h : ∀ s ∈ c.sets, s.num_ways ≤ 1) (i : Nat) :
    (c.sets.getD i default).num_ways ≤ 1 := by
  rcases Nat.lt_or_ge i c.sets.length with hlt | hge
  · rw [List.getD_eq_getElem _ _ hlt]
    exact h _ (List.getElem_mem hlt)
  · rw [List.getD_eq_default _ _ hge]
    exact Nat.zero_le 1

/-- When every set is direct-mapped (at most one way), cache_access and
the variant with the recency-list updates stripped agree exactly. -/
theorem cache_access_eq_without_lru (c : cache_t) (a : Nat) (w : Bool)
    (h : ∀ s ∈ c.sets, s.num_ways ≤ 1) :
    cache_access c a w = cache_access_without_lru c a w := by
  have hset := getD_num_ways_le_one c h (cache_get_index c a)
  simp only [cache_access, cache_access_without_lru]
  cases hf : find_line (c.sets.getD (cache_get_index c a) default)
      (cache_get_tag c a) with
  | some i =>
      simp only [hf]
      rw [lru_move_to_head_of_ways_le_one]
      exact hset
  | none =>
      simp only [hf]
      cases hv : select_victim (c.sets.getD (cache_get_index c a) default) with
      | none => rfl
      | some v =>
          simp only [hv]
          rw [lru_move_to_head_of_ways_le_one]
          exact hset

theorem cache_access_preserves_ways_le_one (c : cache_t) (a : Nat) (w : Bool)
    (out : cache_access_out) (h : ∀ s ∈ c.sets, s.num_ways ≤ 1)
    (hacc : cache_access c a w = some out) :
    ∀ s ∈ out.cache.sets, s.num_ways ≤ 1 := by
  have hset := getD_num_ways_le_one c h (cache_get_index c a)
  simp only [cache_access] at hacc
  split at hacc
  · cases hacc
    intro s hs
    rcases List.mem_or_eq_of_mem_set hs with h1 | h2
    · exact h s h1
    · subst h2
      rw [lru_move_to_head_num_ways]
      exact hset
  · split at hacc
    · cases hacc
    · cases hacc
      intro s hs
      rcases List.mem_or_eq_of_mem_set hs with h1 | h2
      · exact h s h1
      · subst h2
        rw [lru_move_to_head_num_ways]
        exact hset

theorem cache_run_eq_without_lru (t : List (Nat × Bool)) :
    ∀ (c : cache_t), (∀ s ∈ c.sets, s.num_ways ≤ 1) →
      cache_run c t = cache_run_without_lru c t := by
  induction t with
  | nil => intro c _; rfl
  | cons aw rest ih =>
      intro c hc
      obtain ⟨a, w⟩ := aw
      simp only [cache_run, cache_run_without_lru,
        ← cache_access_eq_without_lru c a w hc]
      cases hacc : cache_access c a w with
      | none => rfl
      | some out =>
          dsimp only
          rw [ih out.cache (cache_access_preserves_ways_le_one c a w out hc hacc)]

/-- C9: (a) cache_init never initializes a recency list for a
direct-mapped cache (every set's list is empty and has one way);
(b) for a cache whose sets are all direct-mapped, every trace produces
exactly the same outcome - hit/miss result sequence and final state -
under cache_access and under the variant with recency-list maintenance
stripped out; (c) a single direct-mapped access never changes any set's
recency list. -/
theorem C9_direct_mapped_no_lru :
    (∀ size block_size : Nat,
      ∀ s ∈ (cache_init ⟨size, block_size, DIRECT_MAPPED⟩).sets,
        s.lru = [] ∧ s.num_ways = 1) ∧
    (∀ (c : cache_t) (t : List (Nat × Bool)),
      (∀ s ∈ c.sets, s.num_ways = 1) →
      cache_run c t = cache_run_without_lru c t) ∧
    (∀ (c : cache_t) (a : Nat) (w : Bool) (out : cache_access_out),
      (∀ s ∈ c.sets, s.num_ways = 1) →
      cache_access c a w = some out →
      ∀ i, (out.cache.sets.getD i default).lru = (c.sets.getD i default).lru) := by
  refine ⟨?_, ?_, ?_⟩
  · intro size block_size s hs
    have hrep := List.eq_of_mem_replicate hs
    subst hrep
    exact ⟨by simp [init_lru_list], rfl⟩
  · intro c t hc
    exact cache_run_eq_without_lru t c (fun s hs => le_of_eq (hc s hs))
  · intro c a w out hc hacc
    have hc' : ∀ s ∈ c.sets, s.num_ways ≤ 1 := fun s hs => le_of_eq (hc s hs)
    have hset := getD_num_ways_le_one c hc' (cache_get_index c a)
    have hmv : ∀ (X : cache_set_t) (j : Nat), X.num_ways ≤ 1 →
        (lru_move_to_head X j).lru = X.lru := fun X j hX => by
      rw [lru_move_to_head_of_ways_le_one X j hX]
    have hsets : ∃ ns, out.cache.sets = c.sets.set (cache_get_index c a) ns ∧
        ns.lru = (c.sets.getD (cache_get_index c a) default).lru := by
      simp only [cache_access] at hacc
      split at hacc
      · cases hacc
        exact ⟨_, rfl, hmv _ _ hset⟩
      · split at hacc
        · cases hacc
        · cases hacc
          exact ⟨_, rfl, hmv _ _ hset⟩
    obtain ⟨ns, hs, hlru⟩ := hsets
    intro i
    rw [hs]
    rcases Nat.lt_or_ge (cache_get_index c a) c.sets.length with hlt | hge
    · by_cases hi : cache_get_index c a = i
      · subst hi
        rw [getD_set_self _ _ _ _ hlt, hlru]
      · rw [getD_set_ne _ _ _ hi]
    · rw [List.set_eq_of_length_le hge]

/-- Witness for C9: a concrete direct-mapped cache and trace. -/
theorem C9_direct_mapped_no_lru_witness :
    cache_run wdm [(0, false), (16, true), (0, false)]
      = cache_run_without_lru wdm [(0, false), (16, true), (0, false)] ∧
    (∀ s ∈ (cache_init ⟨32, 16, DIRECT_MAPPED⟩).sets,
      s.lru = [] ∧ s.num_ways = 1) :=
  ⟨C9_direct_mapped_no_lru.2.1 wdm [(0, false), (16, true), (0, false)]
      (by decide),
   C9_direct_mapped_no_lru.1 32 16⟩

/-! ## C8: multilevel cache access -/

/-- C8: for the two-level configuration multilevel_cache_init accepts,
multilevel_cache_access tries level 0 first and returns CACHE_HIT_L1 with
level 1 untouched (state and counter) on an L1 hit; on an L1 miss it
tries level 1, whose per-level counter increments exactly then, returning
CACHE_HIT_L2 on an L2 hit and CACHE_MISS_ALL_LEVELS when both miss, each
tried level's state being updated by its own cache_access (which installs
per its own miss policy); and the level-0 access count is the level-0
cache's own total-accesses counter, which each access increments. -/
theorem C8_multilevel_access (c0 c1 : cache_t) (a0 a1 : Nat) (addr : Nat)
    (w : Bool) :
    (∀ o0, cache_access c0 addr w = some o0 → o0.result = CACHE_HIT →
      multilevel_cache_access ⟨2, [c0, c1], [a0, a1]⟩ addr w
        = some (CACHE_HIT_L1, ⟨2, [o0.cache, c1], [a0, a1]⟩)) ∧
    (∀ o0 o1, cache_access c0 addr w = some o0 → o0.result = CACHE_MISS →
      cache_access c1 addr w = some o1 → o1.result = CACHE_HIT →
      multilevel_cache_access ⟨2, [c0, c1], [a0, a1]⟩ addr w
        = some (CACHE_HIT_L2, ⟨2, [o0.cache, o1.cache], [a0, a1 + 1]⟩)) ∧
    (∀ o0 o1, cache_access c0 addr w = some o0 → o0.result = CACHE_MISS →
      cache_access c1 addr w = some o1 → o1.result = CACHE_MISS →
      multilevel_cache_access ⟨2, [c0, c1], [a0, a1]⟩ addr w
        = some (CACHE_MISS_ALL_LEVELS, ⟨2, [o0.cache, o1.cache], [a0, a1 + 1]⟩)) ∧
    (∀ o0, cache_access c0 addr w = some o0 →
      o0.cache.accesses = c0.accesses + 1 ∧
      (∀ lv accs, mlc_reported_accesses ⟨2, o0.cache :: lv, accs⟩ 0
        = c0.accesses + 1)) := by
    refine ⟨?_, ?_, ?_, ?_⟩
    · intro o0 h0 hr
      simp [multilevel_cache_access, mlc_loop, h0, hr, CACHE_HIT,
        encode_hit_level, CACHE_HIT_L1]
    · intro o0 o1 h0 hr0 h1 hr1
      simp [multilevel_cache_access, mlc_loop, h0, hr0, h1, hr1, CACHE_HIT,
        CACHE_MISS, encode_hit_level, CACHE_HIT_L1, CACHE_HIT_L2, bump_level]
    · intro o0 o1 h0 hr0 h1 hr1
      simp [multilevel_cache_access, mlc_loop, h0, hr0, h1, hr1, CACHE_HIT,
        CACHE_MISS, CACHE_MISS_ALL_LEVELS, encode_hit_level, bump_level]
    · intro o0 h0
      have hacc : o0.cache.accesses = c0.accesses + 1 := by
        simp only [cache_access] at h0
        split at h0
        · cases h0
          rfl
        · split at h0
          · cases h0
          · cases h0
            rfl
      exact ⟨hacc, fun lv accs => by
        simp [mlc_reported_accesses, hacc]⟩

/-- Witness for C8: both levels of a concrete 2-level hierarchy miss on a
fresh address; the L2 counter goes from 0 to 1. -/
theorem C8_multilevel_access_witness :
    multilevel_cache_access wmlc 256 false
      = some (CACHE_MISS_ALL_LEVELS,
          ⟨2, [((cache_access wl1 256 false).getD default).cache,
               ((cache_access wl2 256 false).getD default).cache],
            [0, 0 + 1]⟩) :=
  (C8_multilevel_access wl1 wl2 0 0 256 false).2.2.1
    ((cache_access wl1 256 false).getD default)
    ((cache_access wl2 256 false).getD default)
    (by decide) (by decide) (by decide) (by decide)

/-! ## C7: what a TLB hit does to the page table -/

theorem pagetable_lookup_st_accesses (s : ptstate) (vpn : Nat) :
    (pagetable_lookup s vpn).st.pt_accesses = s.pt_accesses + 1 := by
  simp only [pagetable_lookup]
  split <;> rfl

theorem pagetable_lookup_st_faults (s : ptstate) (vpn : Nat) :
    (pagetable_lookup s vpn).st.page_faults = s.page_faults := by
  simp only [pagetable_lookup]
  split <;> rfl

theorem pagetable_lookup_st_table (s : ptstate) (vpn : Nat) :
    (pagetable_lookup s vpn).st.page_table = s.page_table := by
  simp only [pagetable_lookup]
  split <;> rfl

theorem pagetable_set_dirty_accesses (s : ptstate) (vpn : Nat) :
    (pagetable_set_dirty s vpn).pt_accesses = s.pt_accesses := by
  unfold pagetable_set_dirty
  split <;> rfl

theorem pagetable_set_dirty_faults (s : ptstate) (vpn : Nat) :
    (pagetable_set_dirty s vpn).page_faults = s.page_faults := by
  unfold pagetable_set_dirty
  split <;> rfl

theorem pagetable_set_dirty_present (s : ptstate) (vpn v : Nat) :
    ((pagetable_set_dirty s vpn).page_table v).present
      = (s.page_table v).present := by
  unfold pagetable_set_dirty
  split
  · by_cases hv : v = vpn <;> simp [updf, hv]
  · rfl

/-- C7 (amended): on a trace access whose TLB lookup hits, the per-access
record reports the page table as not consulted, and no page fault can
occur and no PTE's present bit changes; however the page table IS still
touched for LRU maintenance - pagetable_lookup is called with its result
discarded - so its access counter increments by exactly one. -/
theorem C7_tlb_hit_page_table (sys : sys_state) (vaddr : Nat) (w : Bool)
    (h : (tlb_lookup sys.tlb (get_vpn vaddr)).res = TLB_HIT) :
    ∃ o, translate_address sys vaddr w = some o ∧
      o.tlb_res = TLB_HIT ∧
      report_pt o.tlb_res o.pt_res = .not_consulted ∧
      o.sys.pt.pt_accesses = sys.pt.pt_accesses + 1 ∧
      o.sys.pt.page_faults = sys.pt.page_faults ∧
      (∀ v, (o.sys.pt.page_table v).present = (sys.pt.page_table v).present) := by
  cases w with
  | false =>
      simp only [translate_address]
      rw [if_pos h]
      refine ⟨_, rfl, rfl, rfl, ?_, ?_, ?_⟩
      · simp [pagetable_lookup_st_accesses]
      · simp [pagetable_lookup_st_faults]
      · intro v
        simp [pagetable_lookup_st_table]
  | true =>
      simp only [translate_address]
      rw [if_pos h]
      refine ⟨_, rfl, rfl, rfl, ?_, ?_, ?_⟩
      · simp [pagetable_set_dirty_accesses, pagetable_lookup_st_accesses]
      · simp [pagetable_set_dirty_faults, pagetable_lookup_st_faults]
      · intro v
        simp [pagetable_set_dirty_present, pagetable_lookup_st_table]

/-- Witness for C7 (amended): the second access to address 0 from a fresh
system hits the TLB. -/
theorem C7_tlb_hit_page_table_witness :
    ∃ o, translate_address ((translate_address wsys 0 false).getD
        ⟨0, TLB_MISS, PT_MISS, wsys⟩).sys 0 false = some o ∧
      o.tlb_res = TLB_HIT ∧
      report_pt o.tlb_res o.pt_res = .not_consulted ∧
      o.sys.pt.pt_accesses = ((translate_address wsys 0 false).getD
        ⟨0, TLB_MISS, PT_MISS, wsys⟩).sys.pt.pt_accesses + 1 ∧
      o.sys.pt.page_faults = ((translate_address wsys 0 false).getD
        ⟨0, TLB_MISS, PT_MISS, wsys⟩).sys.pt.page_faults ∧
      (∀ v, (o.sys.pt.page_table v).present
        = (((translate_address wsys 0 false).getD
            ⟨0, TLB_MISS, PT_MISS, wsys⟩).sys.pt.page_table v).present) :=
  C7_tlb_hit_page_table
    ((translate_address wsys 0 false).getD ⟨0, TLB_MISS, PT_MISS, wsys⟩).sys
    0 false (by decide)

/-- Counterexample for C7 as frozen: on the second access to address 0
the TLB hits, the record reports the page table as not consulted, yet the
page table's access counter changes from 1 to 2 - its state and
statistics are not left unchanged by a TLB-hit access. -/
theorem C7_counterexample :
    ((translate_address wsys 0 false).map fun o => o.sys.pt.pt_accesses)
      = some 1 ∧
    ((translate_address wsys 0 false).bind fun o =>
        (translate_address o.sys 0 false).map fun o2 =>
          (o2.tlb_res, report_pt o2.tlb_res o2.pt_res, o2.sys.pt.pt_accesses))
      = some (TLB_HIT, pt_report.not_consulted, 2) := by
  constructor
  · rfl
  · rfl

/-! ## C10: page-table indexing bounds -/

/-- C10: the page-table operations index the fixed 2^14-entry table
directly with the VPN (pagetable_lookup's result is literally the present
bit of slot vpn, with no bounds check in the model or the C), so the
array access is in bounds exactly when vpn < PAGE_TABLE_ENTRIES, i.e.
exactly when the 32-bit virtual address is below 0x04000000; yet the
driver's get_vpn produces up to 20 bits of VPN from an arbitrary 32-bit
trace address, so safety of every access requires that precondition on
the trace. -/
theorem C10_page_table_bounds :
    (∀ s vpn, (pagetable_lookup s vpn).res
      = (if (s.page_table vpn).present then PT_HIT else PT_MISS)) ∧
    (∀ vaddr : Nat, get_vpn vaddr < PAGE_TABLE_ENTRIES ↔ vaddr < 0x04000000) ∧
    (∀ vaddr : Nat, vaddr < 2 ^ 32 → get_vpn vaddr < 2 ^ 20) ∧
    get_vpn 0xFFFFFFFF = 2 ^ 20 - 1 ∧
    (0x04000000 < 2 ^ 32 ∧ ¬ get_vpn 0x04000000 < PAGE_TABLE_ENTRIES) := by
  refine ⟨?_, ?_, ?_, by decide, by decide, by decide⟩
  · intro s vpn
    simp only [pagetable_lookup]
    split <;> simp_all
  · intro vaddr
    have h1 : get_vpn vaddr = vaddr / 2 ^ 12 := by
      simp [get_vpn, Nat.shiftRight_eq_div_pow]
    have h2 : PAGE_TABLE_ENTRIES = 2 ^ 14 := rfl
    rw [h1, h2, Nat.div_lt_iff_lt_mul (by norm_num : 0 < 2 ^ 12)]
    norm_num
  · intro vaddr h
    have h1 : get_vpn vaddr = vaddr / 2 ^ 12 := by
      simp [get_vpn, Nat.shiftRight_eq_div_pow]
    rw [h1, Nat.div_lt_iff_lt_mul (by norm_num : 0 < 2 ^ 12)]
    calc vaddr < 2 ^ 32 := h
    _ = 2 ^ 20 * 2 ^ 12 := by norm_num

/-- Witness for C10: the address 0xFFFFFFFF is 32-bit and its VPN has 20
bits, exceeding the table bound. -/
theorem C10_page_table_bounds_witness :
    get_vpn 0xFFFFFFFF < 2 ^ 20 ∧
    ¬ get_vpn 0xFFFFFFFF < PAGE_TABLE_ENTRIES :=
  ⟨C10_page_table_bounds.2.2.1 0xFFFFFFFF (by decide), by decide⟩

/-! ## C5: every frame is in exactly one of the free and used lists -/

theorem ll_move_to_head_mem (lst : List Nat) (g : Nat) (hg : g ∈ lst)
    (f : Nat) : f ∈ ll_move_to_head lst g ↔ f ∈ lst := by
  unfold ll_move_to_head
  split
  · exact Iff.rfl
  · by_cases hf : f = g
    · subst hf
      simp [hg]
    · simp [hf, List.mem_erase_of_ne hf]

theorem ll_move_to_head_nodup (lst : List Nat) (g : Nat)
    (hnd : lst.Nodup) : (ll_move_to_head lst g).Nodup := by
  unfold ll_move_to_head
  split
  · exact hnd
  · exact List.nodup_cons.mpr
      ⟨fun hmem => ((hnd.mem_erase_iff).1 hmem).1 rfl, hnd.erase g⟩

@[simp]
theorem updf_self {α : Type} (g : Nat → α) (i : Nat) (v : α) :
    updf g i v i = v := by
  simp [updf]

theorem updf_ne {α : Type} (g : Nat → α) {i j : Nat} (v : α) (h : j ≠ i) :
    updf g i v j = g j := by
  simp [updf, h]

@[simp]
theorem updf_updf_self {α : Type} (g : Nat → α) (i : Nat) (a b : α) :
    updf (updf g i a) i b = updf g i b := by
  funext j
  unfold updf
  split <;> rfl

set_option maxRecDepth 4000 in
theorem pt_wf_init : pt_wf pagetable_init := by
  unfold pt_wf pagetable_init
  refine ⟨List.nodup_range _, List.nodup_nil, ?_, ?_, ?_, ?_⟩
  · intro f hf
    exact List.mem_range.mp hf
  · intro f hf
    simp at hf
  · intro f hf
    simp [List.mem_range, hf]
  · intro vpn hp
    simp at hp

theorem pt_wf_lookup (s : ptstate) (vpn : Nat) (h : pt_wf s) :
    pt_wf (pagetable_lookup s vpn).st := by
  obtain ⟨h1, h2, h3, h4, h5, h6⟩ := h
  simp only [pagetable_lookup]
  split
  case isTrue hp =>
      have hmem : (s.page_table vpn).ppn ∈ s.used_page_list := h6 vpn hp
      refine ⟨h1, ll_move_to_head_nodup _ _ h2, h3, ?_, ?_, ?_⟩
      · intro f hf
        exact h4 f ((ll_move_to_head_mem _ _ hmem f).1 hf)
      · intro f hfl
        rw [ll_move_to_head_mem _ _ hmem f]
        exact h5 f hfl
      · intro v hv
        rw [ll_move_to_head_mem _ _ hmem]
        exact h6 v hv
  case isFalse => exact ⟨h1, h2, h3, h4, h5, h6⟩

theorem pt_wf_set_dirty (s : ptstate) (vpn : Nat) (h : pt_wf s) :
    pt_wf (pagetable_set_dirty s vpn) := by
  obtain ⟨h1, h2, h3, h4, h5, h6⟩ := h
  unfold pagetable_set_dirty
  split
  · refine ⟨h1, h2, h3, h4, h5, ?_⟩
    intro v hv
    by_cases hvv : v = vpn
    · subst hvv
      simp only [updf, if_pos rfl] at hv ⊢
      exact h6 v hv
    · simp only [updf, if_neg hvv] at hv ⊢
      exact h6 v hv
  · exact ⟨h1, h2, h3, h4, h5, h6⟩

/-- Installing a fresh page from the head of the free list keeps the
state well formed. -/
theorem pt_wf_alloc_install (s0 : ptstate) (vpn f : Nat) (rest : List Nat)
    (fpte : Nat → Option Nat) (a b c : Nat) (h : pt_wf s0)
    (hfree : s0.free_page_list = f :: rest) :
    pt_wf ⟨updf s0.page_table vpn ⟨true, false, f⟩, rest,
      f :: s0.used_page_list, fpte, a, b, c⟩ := by
  obtain ⟨h1, h2, h3, h4, h5, h6⟩ := h
  rw [hfree] at h1
  have hfrest : f ∉ rest := (List.nodup_cons.mp h1).1
  have hfmem : f ∈ s0.free_page_list := by
    rw [hfree]
    exact List.mem_cons_self f rest
  have hflt : f < NUM_PHYSICAL_PAGES := h3 f hfmem
  have hfused : f ∉ s0.used_page_list := (h5 f hflt).1 hfmem
  refine ⟨(List.nodup_cons.mp h1).2, List.nodup_cons.mpr ⟨hfused, h2⟩, ?_, ?_,
    ?_, ?_⟩
  · intro g hg
    exact h3 g (by rw [hfree]; exact List.mem_cons_of_mem f hg)
  · intro g hg
    rcases List.mem_cons.mp hg with hgf | hgu
    · subst hgf; exact hflt
    · exact h4 g hgu
  · intro g hg
    by_cases hgf : g = f
    · subst hgf
      exact iff_of_false hfrest (by simp)
    · have := h5 g hg
      rw [hfree] at this
      simp only [List.mem_cons] at this
      constructor
      · intro hgr
        have hgfree : g = f ∨ g ∈ rest := Or.inr hgr
        intro hgc
        rcases List.mem_cons.mp hgc with h' | h'
        · exact hgf h'
        · exact (this.mp hgfree) h'
      · intro hgc
        have hgu : g ∉ s0.used_page_list := fun hm =>
          hgc (List.mem_cons_of_mem f hm)
        rcases this.mpr hgu with h' | h'
        · exact absurd h' hgf
        · exact h'
  · intro v hv
    by_cases hvv : v = vpn
    · subst hvv
      simp only [updf, if_pos rfl]
      exact List.mem_cons_self f _
    · simp only [updf, if_neg hvv] at hv ⊢
      exact List.mem_cons_of_mem f (h6 v hv)

/-- Reinstalling the evicted LRU frame keeps the state well formed, for
any new table tab' that only clears present bits or preserves
present/ppn pointwise. -/
theorem pt_wf_evict_install (s0 : ptstate) (vpn v : Nat) (tab' : Nat → pte_t)
    (fpte : Nat → Option Nat) (a b c : Nat) (h : pt_wf s0)
    (hvmem : v ∈ s0.used_page_list)
    (htab : ∀ x, (tab' x).present = true →
      (s0.page_table x).present = true ∧ (tab' x).ppn = (s0.page_table x).ppn)
    (hfree : s0.free_page_list = []) :
    pt_wf ⟨updf tab' vpn ⟨true, false, v⟩, [],
      v :: s0.used_page_list.erase v, fpte, a, b, c⟩ := by
  obtain ⟨h1, h2, h3, h4, h5, h6⟩ := h
  refine ⟨List.nodup_nil,
    List.nodup_cons.mpr ⟨fun hmem => ((h2.mem_erase_iff).1 hmem).1 rfl,
      h2.erase v⟩,
    by simp, ?_, ?_, ?_⟩
  · intro g hg
    rcases List.mem_cons.mp hg with hgv | hgr
    · rw [hgv]; exact h4 v hvmem
    · exact h4 g (List.erase_subset v s0.used_page_list hgr)
  · intro g hg
    have hgu : g ∈ s0.used_page_list := by
      by_contra hgu
      have hc := (h5 g hg).2 hgu
      rw [hfree] at hc
      simp at hc
    refine iff_of_false (by simp) ?_
    intro hn
    apply hn
    by_cases hgv : g = v
    · rw [hgv]; exact List.mem_cons_self v _
    · exact List.mem_cons_of_mem v ((List.mem_erase_of_ne hgv).mpr hgu)
  · show ∀ x, (updf tab' vpn ⟨true, false, v⟩ x).present = true →
        (updf tab' vpn ⟨true, false, v⟩ x).ppn
          ∈ v :: s0.used_page_list.erase v
    intro x hx
    by_cases hxv : x = vpn
    · rw [hxv, updf_self]
      exact List.mem_cons_self v _
    · rw [updf_ne _ _ hxv] at hx ⊢
      obtain ⟨hpres, hppn⟩ := htab x hx
      rw [hppn]
      have hm := h6 x hpres
      by_cases hpv : (s0.page_table x).ppn = v
      · rw [hpv]
        exact List.mem_cons_self v _
      · exact List.mem_cons_of_mem v ((List.mem_erase_of_ne hpv).mpr hm)

/-- Once the state is well formed, a page fault always obtains a frame -
the fatal both-lists-empty branch is unreachable - and preserves
well-formedness. -/
theorem pt_fault_succeeds (s0 : ptstate) (vpn : Nat) (h : pt_wf s0) :
    ∃ fr s', pagetable_handle_fault s0 vpn = some (fr, s') ∧ pt_wf s' := by
  simp only [pagetable_handle_fault]
  cases hfree : s0.free_page_list with
  | cons f rest =>
      refine ⟨f, _, rfl, ?_⟩
      exact pt_wf_alloc_install s0 vpn f rest _ _ _ _ h hfree
  | nil =>
      have hne : s0.used_page_list ≠ [] := by
        intro hu
        have h0 := (h.2.2.2.2.1 0 (by norm_num [NUM_PHYSICAL_PAGES]))
        rw [hfree, hu] at h0
        simp at h0
      obtain ⟨v, hv⟩ : ∃ v, s0.used_page_list.getLast? = some v := by
        cases hl : s0.used_page_list.getLast? with
        | none => exact absurd (List.getLast?_eq_none_iff.mp hl) hne
        | some v => exact ⟨v, rfl⟩
      have hvmem : v ∈ s0.used_page_list :=
        List.mem_of_mem_getLast? (Option.mem_def.mpr hv)
      cases hfp : s0.frame_pte v with
      | none =>
          simp only [get_victim_page, ll_get_tail, ll_remove_page, hv, hfp]
          refine ⟨v, _, rfl, ?_⟩
          exact pt_wf_evict_install s0 vpn v s0.page_table _ _ _ _ h hvmem
            (fun x hx => ⟨hx, rfl⟩) hfree
      | some ovpn =>
          by_cases hd : (s0.page_table ovpn).dirty = true
          · simp only [get_victim_page, ll_get_tail, ll_remove_page, hv, hfp,
              updf_self]
            rw [if_pos hd]
            refine ⟨v, _, rfl, ?_⟩
            refine pt_wf_evict_install s0 vpn v _ _ _ _ _ h hvmem ?_ hfree
            intro x hx
            simp only [] at hx ⊢
            by_cases hxo : x = ovpn
            · rw [hxo, updf_self] at hx
              simp at hx
            · rw [updf_ne _ _ hxo, updf_ne _ _ hxo] at hx
              rw [updf_ne _ _ hxo, updf_ne _ _ hxo]
              exact ⟨hx, rfl⟩
          · simp only [get_victim_page, ll_get_tail, ll_remove_page, hv, hfp,
              updf_self]
            rw [if_neg hd]
            refine ⟨v, _, rfl, ?_⟩
            refine pt_wf_evict_install s0 vpn v _ _ _ _ _ h hvmem ?_ hfree
            intro x hx
            simp only [] at hx ⊢
            by_cases hxo : x = ovpn
            · rw [hxo, updf_self] at hx
              simp at hx
            · rw [updf_ne _ _ hxo] at hx
              rw [updf_ne _ _ hxo]
              exact ⟨hx, rfl⟩

theorem pt_step_wf (s : ptstate) (o : pt_op) (h : pt_wf s) :
    ∃ s', pt_step s o = some s' ∧ pt_wf s' := by
  cases o with
  | look vpn => exact ⟨_, rfl, pt_wf_lookup s vpn h⟩
  | mark vpn => exact ⟨_, rfl, pt_wf_set_dirty s vpn h⟩
  | fault vpn =>
      obtain ⟨fr, s', heq, hwf⟩ := pt_fault_succeeds s vpn h
      refine ⟨s', ?_, hwf⟩
      simp [pt_step, heq]

theorem pt_run_from_wf (ops : List pt_op) :
    ∀ s, pt_wf s → ∃ s', pt_run_from s ops = some s' ∧ pt_wf s' := by
  induction ops with
  | nil => intro s h; exact ⟨s, rfl, h⟩
  | cons o os ih =>
      intro s h
      obtain ⟨s1, hstep, hwf1⟩ := pt_step_wf s o h
      obtain ⟨s', hrun, hwf'⟩ := ih s1 hwf1
      refine ⟨s', ?_, hwf'⟩
      simp [pt_run_from, hstep, hrun]

/-- C5: after pagetable_init, in every state reachable by any sequence of
lookup/fault/set-dirty operations, each frame id below
NUM_PHYSICAL_PAGES lies in exactly one of the free and used lists, the
whole run succeeds (no operation ever reaches the fatal branch), and
from any reachable state pagetable_handle_fault obtains a frame - its
both-lists-empty branch is unreachable. -/
theorem C5_frame_partition (ops : List pt_op) :
    ∃ s, pt_run ops = some s ∧
      (∀ f, f < NUM_PHYSICAL_PAGES →
        (f ∈ s.free_page_list ↔ f ∉ s.used_page_list)) ∧
      (∀ vpn, ∃ fr s', pagetable_handle_fault s vpn = some (fr, s')) := by
  obtain ⟨s, hrun, hwf⟩ := pt_run_from_wf ops pagetable_init pt_wf_init
  refine ⟨s, hrun, hwf.2.2.2.2.1, ?_⟩
  intro vpn
  obtain ⟨fr, s', heq, _⟩ := pt_fault_succeeds s vpn hwf
  exact ⟨fr, s', heq⟩

/-! ## C6: the 257th distinct VPN evicts the LRU page -/

theorem pt_access_run_append (l1 l2 : List Nat) :
    ∀ s, pt_access_run s (l1 ++ l2)
      = match pt_access_run s l1 with
        | none => none
        | some s' => pt_access_run s' l2 := by
  induction l1 with
  | nil => intro s; rfl
  | cons v l1 ih =>
      intro s
      simp only [List.cons_append, pt_access_run]
      cases pt_access s v with
      | none => rfl
      | some s1 => exact ih s1

/-- Shape of the page-table state after pt_access_run over pairwise
distinct, previously untouched VPNs from a fresh table: the first k free
frames are consumed in order, the used list is exactly the reverse of
0..k-1 (head = most recent), and the i-th VPN owns frame i. -/
theorem pt_access_run_fresh (vs : List Nat) :
    vs.Nodup → vs.length ≤ NUM_PHYSICAL_PAGES →
    ∃ s, pt_access_run pagetable_init vs = some s ∧
      s.free_page_list
        = List.range' vs.length (NUM_PHYSICAL_PAGES - vs.length) ∧
      s.used_page_list = (List.range vs.length).reverse ∧
      (∀ i (hi : i < vs.length), s.page_table vs[i] = ⟨true, false, i⟩) ∧
      (∀ v, v ∉ vs → s.page_table v = ⟨false, false, 0⟩) ∧
      (∀ f (hf : f < vs.length), s.frame_pte f = some vs[f]) ∧
      s.pt_accesses = vs.length ∧
      s.page_faults = vs.length ∧
      s.page_faults_dirty = 0 := by
  induction vs using List.reverseRecOn with
  | nil =>
      intro _ _
      refine ⟨pagetable_init, rfl, ?_, rfl, ?_, ?_, ?_, rfl, rfl, rfl⟩
      · simp [pagetable_init, List.range_eq_range', NUM_PHYSICAL_PAGES]
      · intro i hi
        simp at hi
      · intro v _
        rfl
      · intro f hf
        simp at hf
  | append_singleton vs w ih =>
      intro hnd hlen
      have hvnd : vs.Nodup := hnd.of_append_left
      have hww : w ∉ vs := by
        rw [List.nodup_append] at hnd
        intro hm
        exact hnd.2.2 hm (by simp)
      have hk : vs.length + 1 ≤ NUM_PHYSICAL_PAGES := by
        simpa using hlen
      obtain ⟨s, hrun, hfree, hused, htab, htabd, hfp, hacc, hfaults, hdirty⟩ :=
        ih hvnd (by omega)
      have hmiss : pt_access s w
          = (pagetable_handle_fault { s with pt_accesses := s.pt_accesses + 1 }
              w).map (·.2) := by
        simp [pt_access, pagetable_lookup, htabd w hww]
      have hfree' : s.free_page_list
          = vs.length :: List.range' (vs.length + 1)
              (NUM_PHYSICAL_PAGES - (vs.length + 1)) := by
        rw [hfree]
        have hco : NUM_PHYSICAL_PAGES - vs.length
            = (NUM_PHYSICAL_PAGES - (vs.length + 1)) + 1 := by omega
        rw [hco, List.range'_succ]
      refine ⟨⟨updf s.page_table w ⟨true, false, vs.length⟩,
          List.range' (vs.length + 1) (NUM_PHYSICAL_PAGES - (vs.length + 1)),
          vs.length :: s.used_page_list,
          updf s.frame_pte vs.length (some w),
          s.pt_accesses + 1, s.page_faults + 1, s.page_faults_dirty⟩,
        ?_, ?_, ?_, ?_, ?_, ?_, ?_, ?_, ?_⟩
      · rw [pt_access_run_append, hrun]
        simp only [pt_access_run]
        rw [hmiss]
        simp only [pagetable_handle_fault, hfree']
        rfl
      · simp
      · show vs.length :: s.used_page_list
          = (List.range (vs ++ [w]).length).reverse
        rw [hused]
        simp [List.range_succ]
      · intro i hi
        simp only [List.length_append, List.length_singleton] at hi
        rcases Nat.lt_or_ge i vs.length with hilt | hige
        · rw [List.getElem_append_left hilt]
          show updf s.page_table w ⟨true, false, vs.length⟩ vs[i]
            = ⟨true, false, i⟩
          have hne : vs[i] ≠ w := by
            intro he
            exact hww (he ▸ List.getElem_mem hilt)
          rw [updf_ne _ _ hne]
          exact htab i hilt
        · have hieq : i = vs.length := by omega
          rw [List.getElem_concat_length vs w i hieq]
          show updf s.page_table w ⟨true, false, vs.length⟩ w
            = ⟨true, false, i⟩
          rw [updf_self, hieq]
      · intro v hv
        simp only [List.mem_append, List.mem_singleton] at hv
        push_neg at hv
        show updf s.page_table w ⟨true, false, vs.length⟩ v
          = ⟨false, false, 0⟩
        rw [updf_ne _ _ hv.2]
        exact htabd v hv.1
      · intro f hf
        simp only [List.length_append, List.length_singleton] at hf
        rcases Nat.lt_or_ge f vs.length with hflt | hfge
        · show updf s.frame_pte vs.length (some w) f = some (vs ++ [w])[f]
          have hne : f ≠ vs.length := by omega
          rw [updf_ne _ _ hne, List.getElem_append_left hflt]
          exact hfp f hflt
        · have hfeq : f = vs.length := by omega
          subst hfeq
          show updf s.frame_pte vs.length (some w) vs.length
            = some (vs ++ [w])[vs.length]
          rw [updf_self, List.getElem_concat_length vs w _ rfl]
      · show s.pt_accesses + 1 = (vs ++ [w]).length
        simp [hacc]
      · show s.page_faults + 1 = (vs ++ [w]).length
        simp [hfaults]
      · exact hdirty

/-- C6: from a fresh page table with NUM_PHYSICAL_PAGES free frames,
after faulting in NUM_PHYSICAL_PAGES distinct VPNs (optionally marking
the first one dirty), the access to the next distinct VPN w faults and
evicts the least-recently-touched resident page - the first VPN, whose
frame (frame 0) is the tail of the used list - marking its PTE not
present; page_faults_with_dirty_eviction increments exactly once iff
that PTE was dirty, and the PTE's dirty bit is cleared; w takes over
frame 0 and every other resident page stays present. -/
theorem C6_lru_page_eviction (vs : List Nat) (w : Nat) (d : Bool)
    (hnd : (vs ++ [w]).Nodup) (hlen : vs.length = NUM_PHYSICAL_PAGES) :
    ∃ s sf,
      pt_access_run pagetable_init vs = some s ∧
      s.page_faults = NUM_PHYSICAL_PAGES ∧
      s.page_faults_dirty = 0 ∧
      s.free_page_list = [] ∧
      s.used_page_list.getLast? = some 0 ∧
      (s.page_table (vs.headD 0)).ppn = 0 ∧
      (s.page_table (vs.headD 0)).present = true ∧
      pt_access (if d then pagetable_set_dirty s (vs.headD 0) else s) w
        = some sf ∧
      sf.page_faults = NUM_PHYSICAL_PAGES + 1 ∧
      sf.page_faults_dirty = (if d then 1 else 0) ∧
      (sf.page_table (vs.headD 0)).present = false ∧
      (sf.page_table (vs.headD 0)).dirty = false ∧
      sf.page_table w = ⟨true, false, 0⟩ ∧
      (∀ v ∈ vs.tail, (sf.page_table v).present = true) := by
  have hvnd : vs.Nodup := hnd.of_append_left
  have hww : w ∉ vs := by
    rw [List.nodup_append] at hnd
    intro hm
    exact hnd.2.2 hm (by simp)
  obtain ⟨s, hrun, hfree, hused, htab, htabd, hfp, hacc, hfaults, hdirty⟩ :=
    pt_access_run_fresh vs hvnd (le_of_eq hlen)
  cases vs with
  | nil => simp [NUM_PHYSICAL_PAGES] at hlen
  | cons v0 vt =>
  have hlen0 : 0 < (v0 :: vt).length := by simp
  have htab0 : s.page_table v0 = ⟨true, false, 0⟩ := htab 0 hlen0
  have hfp0 : s.frame_pte 0 = some v0 := by
    have h0 : 0 < (v0 :: vt).length := hlen0
    rw [hlen] at h0
    simpa using hfp 0 hlen0
  have hfree0 : s.free_page_list = [] := by
    rw [hfree, hlen, Nat.sub_self]
    rfl
  have hlast : s.used_page_list.getLast? = some 0 := by
    rw [hused, List.getLast?_reverse, hlen, List.head?_range]
    simp [NUM_PHYSICAL_PAGES]
  have hv0w : v0 ≠ w := by
    intro he
    exact hww (he ▸ List.mem_cons_self v0 vt)
  have htw : s.page_table w = ⟨false, false, 0⟩ := htabd w hww
  have htail : ∀ v ∈ vt, v ≠ w ∧ v ≠ v0 ∧ (s.page_table v).present = true := by
    intro v hv
    have hvvs : v ∈ v0 :: vt := List.mem_cons_of_mem v0 hv
    refine ⟨fun he => hww (he ▸ hvvs), ?_, ?_⟩
    · intro he
      exact (List.nodup_cons.mp hvnd).1 (he ▸ hv)
    · obtain ⟨j, hj, hje⟩ := List.getElem_of_mem hv
      have hj1 : j + 1 < (v0 :: vt).length := by simpa using hj
      have := htab (j + 1) hj1
      rw [List.getElem_cons_succ, hje] at this
      rw [this]
  cases d with
  | false =>
      refine ⟨s,
        ⟨updf (updf s.page_table v0 ⟨false, false, 0⟩) w ⟨true, false, 0⟩,
          [], 0 :: s.used_page_list.erase 0, updf s.frame_pte 0 (some w),
          s.pt_accesses + 1, s.page_faults + 1, s.page_faults_dirty⟩,
        hrun, hfaults ▸ hlen ▸ rfl, hdirty, hfree0, hlast,
        by rw [List.headD_cons, htab0], by rw [List.headD_cons, htab0],
        ?_, ?_, ?_, ?_, ?_, ?_, ?_⟩
      · simp only [if_neg (by simp : ¬false = true)]
        simp [pt_access, pagetable_lookup, htw, pagetable_handle_fault,
          hfree0, get_victim_page, ll_get_tail, hlast, ll_remove_page,
          ll_insert_head, hfp0, htab0, updf_self, updf_updf_self]
      · show s.page_faults + 1 = NUM_PHYSICAL_PAGES + 1
        rw [hfaults, hlen]
      · show s.page_faults_dirty = (if false = true then 1 else 0)
        simp [hdirty]
      · show (updf (updf s.page_table v0 ⟨false, false, 0⟩) w
          ⟨true, false, 0⟩ ((v0 :: vt).headD 0)).present = false
        rw [List.headD_cons, updf_ne _ _ hv0w, updf_self]
      · show (updf (updf s.page_table v0 ⟨false, false, 0⟩) w
          ⟨true, false, 0⟩ ((v0 :: vt).headD 0)).dirty = false
        rw [List.headD_cons, updf_ne _ _ hv0w, updf_self]
      · show updf (updf s.page_table v0 ⟨false, false, 0⟩) w
          ⟨true, false, 0⟩ w = ⟨true, false, 0⟩
        rw [updf_self]
      · intro v hv
        obtain ⟨hvw, hvv0, hvp⟩ := htail v hv
        show (updf (updf s.page_table v0 ⟨false, false, 0⟩) w
          ⟨true, false, 0⟩ v).present = true
        rw [updf_ne _ _ hvw, updf_ne _ _ hvv0]
        exact hvp
  | true =>
      have hsd : pagetable_set_dirty s v0
          = { s with page_table := updf s.page_table v0 ⟨true, true, 0⟩ } := by
        simp [pagetable_set_dirty, htab0]
      have htw' : updf s.page_table v0 ⟨true, true, 0⟩ w
          = ⟨false, false, 0⟩ := by
        rw [updf_ne _ _ (Ne.symm hv0w), htw]
      have hfp0' : s.frame_pte 0 = some v0 := hfp0
      refine ⟨s,
        ⟨updf (updf s.page_table v0 ⟨false, false, 0⟩) w ⟨true, false, 0⟩,
          [], 0 :: s.used_page_list.erase 0, updf s.frame_pte 0 (some w),
          s.pt_accesses + 1, s.page_faults + 1, s.page_faults_dirty + 1⟩,
        hrun, hfaults ▸ hlen ▸ rfl, hdirty, hfree0, hlast,
        by rw [List.headD_cons, htab0], by rw [List.headD_cons, htab0],
        ?_, ?_, ?_, ?_, ?_, ?_, ?_⟩
      · simp only [if_pos rfl, List.headD_cons]
        rw [hsd]
        simp [pt_access, pagetable_lookup, htw', pagetable_handle_fault,
          hfree0, get_victim_page, ll_get_tail, hlast, ll_remove_page,
          ll_insert_head, hfp0', updf_self, updf_updf_self]
      · show s.page_faults + 1 = NUM_PHYSICAL_PAGES + 1
        rw [hfaults, hlen]
      · show s.page_faults_dirty + 1 = (if true = true then 1 else 0)
        simp [hdirty]
      · show (updf (updf s.page_table v0 ⟨false, false, 0⟩) w
          ⟨true, false, 0⟩ ((v0 :: vt).headD 0)).present = false
        rw [List.headD_cons, updf_ne _ _ hv0w, updf_self]
      · show (updf (updf s.page_table v0 ⟨false, false, 0⟩) w
          ⟨true, false, 0⟩ ((v0 :: vt).headD 0)).dirty = false
        rw [List.headD_cons, updf_ne _ _ hv0w, updf_self]
      · show updf (updf s.page_table v0 ⟨false, false, 0⟩) w
          ⟨true, false, 0⟩ w = ⟨true, false, 0⟩
        rw [updf_self]
      · intro v hv
        obtain ⟨hvw, hvv0, hvp⟩ := htail v hv
        show (updf (updf s.page_table v0 ⟨false, false, 0⟩) w
          ⟨true, false, 0⟩ v).present = true
        rw [updf_ne _ _ hvw, updf_ne _ _ hvv0]
        exact hvp

/-- Witness for C6: the VPNs 0..255 followed by VPN 300, with the first
VPN marked dirty before the eviction. -/
theorem C6_lru_page_eviction_witness :
    ∃ s sf,
      pt_access_run pagetable_init (List.range 256) = some s ∧
      s.page_faults = NUM_PHYSICAL_PAGES ∧
      s.page_faults_dirty = 0 ∧
      s.free_page_list = [] ∧
      s.used_page_list.getLast? = some 0 ∧
      (s.page_table ((List.range 256).headD 0)).ppn = 0 ∧
      (s.page_table ((List.range 256).headD 0)).present = true ∧
      pt_access
        (if true then pagetable_set_dirty s ((List.range 256).headD 0) else s)
        300 = some sf ∧
      sf.page_faults = NUM_PHYSICAL_PAGES + 1 ∧
      sf.page_faults_dirty = (if true then 1 else 0) ∧
      (sf.page_table ((List.range 256).headD 0)).present = false ∧
      (sf.page_table ((List.range 256).headD 0)).dirty = false ∧
      sf.page_table 300 = ⟨true, false, 0⟩ ∧
      (∀ v ∈ (List.range 256).tail, (sf.page_table v).present = true) :=
  C6_lru_page_eviction (List.range 256) 300 true
    (by
      rw [List.nodup_append]
      refine ⟨List.nodup_range _, List.nodup_singleton _, ?_⟩
      intro a ha hb
      simp only [List.mem_singleton] at hb
      rw [List.mem_range] at ha
      omega)
    (by simp [NUM_PHYSICAL_PAGES])

/-! ## C4: LRU eviction in a fully-associative cache -/

theorem faInit_eq (N : Nat) :
    faInit N = faCache N [] := by
  have hdiv : 16 * N / 16 = N := Nat.mul_div_cancel_left N (by norm_num)
  have hlog : log2_uint32 16 = 4 := rfl
  unfold faInit cache_init faCache faLines faLru init_lru_list
  simp [hdiv, hlog, List.range_eq_range']

theorem faLru_move (N k : Nat) (L : List cache_line_t) (hk : k < N) :
    lru_move_to_head ⟨N, L, faLru N k⟩ k = ⟨N, L, faLru N (k + 1)⟩ := by
  rcases le_or_lt N 1 with hN1 | hN2
  · have h1 : faLru N k = faLru N (k + 1) := by
      unfold faLru
      rw [if_pos hN1, if_pos hN1]
    unfold lru_move_to_head
    rw [if_pos (Or.inl hN1), h1]
  · have hN1 : ¬ N ≤ 1 := by omega
    have hflru : ∀ j, faLru N j
        = (List.range j).reverse ++ List.range' j (N - j) := by
      intro j
      unfold faLru
      rw [if_neg hN1]
    rcases Nat.eq_zero_or_pos k with hk0 | hkpos
    · subst hk0
      have hhead : (faLru N 0).head? = some 0 := by
        rw [hflru]
        have hsplit : N - 0 = (N - 1) + 1 := by omega
        simp [hsplit, List.range'_succ]
      have h1 : faLru N 0 = faLru N 1 := by
        rw [hflru, hflru]
        have hsplit : N - 0 = (N - 1) + 1 := by omega
        rw [hsplit, List.range'_succ]
        simp [List.range_succ]
      unfold lru_move_to_head
      rw [if_pos (Or.inr hhead), h1]
    · have hhead : (faLru N k).head? = some (k - 1) := by
        rw [hflru, List.head?_append]
        have hrev : (List.range k).reverse.head? = some (k - 1) := by
          rw [List.head?_reverse]
          cases k with
          | zero => omega
          | succ m => rw [List.range_succ, List.getLast?_concat]; simp
        rw [hrev]
        rfl
      have hne : ¬ ((⟨N, L, faLru N k⟩ : cache_set_t).lru.head? = some k) := by
        show ¬ ((faLru N k).head? = some k)
        rw [hhead]
        intro hc
        have hc' := Option.some.inj hc
        omega
      have hlist : k :: (faLru N k).erase k = faLru N (k + 1) := by
        rw [hflru, hflru]
        have herase : ((List.range k).reverse ++ List.range' k (N - k)).erase k
            = (List.range k).reverse ++ List.range' (k + 1) (N - (k + 1)) := by
          rw [List.erase_append_right]
          · have hsplit : N - k = (N - (k + 1)) + 1 := by omega
            rw [hsplit, List.range'_succ, List.erase_cons_head]
          · rw [List.mem_reverse, List.mem_range]
            omega
        rw [herase]
        have hrev1 : (List.range (k + 1)).reverse
            = k :: (List.range k).reverse := by
          rw [List.range_succ, List.reverse_append]
          rfl
        rw [hrev1]
        rfl
      unfold lru_move_to_head
      rw [if_neg (by push_neg; exact ⟨show (1 : Nat) < N by omega, hne⟩)]
      show (⟨N, L, k :: (faLru N k).erase k⟩ : cache_set_t)
        = ⟨N, L, faLru N (k + 1)⟩
      rw [hlist]

/-- One read of a fresh tag t in a partially filled fully-associative
cache: a miss that installs t in the lowest invalid way and promotes that
way to the head of the recency list. -/
theorem fa_step (N : Nat) (ts : List Nat) (t : Nat)
    (hts : t ∉ ts) (hlt : ts.length < N) :
    cache_access (faCache N ts) (t <<< 4) false
      = some ⟨CACHE_MISS, faCache N (ts ++ [t]), []⟩ := by
  have htag : cache_get_tag (faCache N ts) (t <<< 4) = t := by
    show (t <<< 4) >>> (4 + 0) = t
    exact Nat.shiftLeft_shiftRight t 4
  have hfind : find_line ⟨N, faLines ts N, faLru N ts.length⟩ t = none := by
    rw [find_line]
    show firstIdxWhere (fun l => l.valid && l.tag == t) (faLines ts N) = none
    rw [firstIdxWhere_eq_none]
    intro x hx
    rcases List.mem_append.mp hx with hx1 | hx2
    · obtain ⟨u, hu, rfl⟩ := List.mem_map.mp hx1
      have hut : u ≠ t := fun he => hts (he ▸ hu)
      simp [hut]
    · rw [List.eq_of_mem_replicate hx2]
      rfl
  have hsplit : N - ts.length = (N - ts.length - 1) + 1 := by omega
  have hinv : find_invalid_line ⟨N, faLines ts N, faLru N ts.length⟩
      = some ts.length := by
    rw [find_invalid_line]
    show firstIdxWhere (fun l => !l.valid) (faLines ts N) = some ts.length
    unfold faLines
    rw [firstIdxWhere_append_none]
    · rw [hsplit, List.replicate_succ]
      simp [firstIdxWhere]
    · rw [firstIdxWhere_eq_none]
      intro x hx
      obtain ⟨u, hu, rfl⟩ := List.mem_map.mp hx
      rfl
  have hsel : select_victim ⟨N, faLines ts N, faLru N ts.length⟩
      = some ts.length := by
    rw [select_victim, hinv]
  have hvict : (faLines ts N).getD ts.length default
      = ⟨false, false, 0⟩ := by
    unfold faLines
    rw [List.getD_append_right _ _ _ _ (by rw [List.length_map])]
    rw [List.length_map, Nat.sub_self, hsplit, List.replicate_succ]
    rfl
  have hlines : (faLines ts N).set ts.length ⟨true, false, t⟩
      = faLines (ts ++ [t]) N := by
    unfold faLines
    rw [List.set_append, if_neg (by rw [List.length_map]; omega)]
    rw [List.length_map, Nat.sub_self, hsplit, List.replicate_succ,
      List.set_cons_zero, List.map_append]
    have hlen2 : N - (ts ++ [t]).length = N - ts.length - 1 := by
      simp
      omega
    rw [hlen2, List.append_assoc]
    rfl
  have hidx : cache_get_index (faCache N ts) (t <<< 4) = 0 := rfl
  have hset : (faCache N ts).sets.getD 0 default
      = ⟨N, faLines ts N, faLru N ts.length⟩ := rfl
  simp only [cache_access, hidx, htag, hset, hfind, hsel, hvict, hlines,
    faLru_move N ts.length (faLines (ts ++ [t]) N) hlt, List.set_cons_zero]
  simp [faCache, List.length_append]

theorem cache_run_append (l1 l2 : List (Nat × Bool)) :
    ∀ c, cache_run c (l1 ++ l2)
      = match cache_run c l1 with
        | none => none
        | some (c', rs) =>
            match cache_run c' l2 with
            | none => none
            | some (c'', rs') => some (c'', rs ++ rs') := by
  induction l1 with
  | nil =>
      intro c
      cases h : cache_run c l2 with
      | none => simp [cache_run, h]
      | some p =>
          obtain ⟨c'', rs'⟩ := p
          simp [cache_run, h]
  | cons aw l1 ih =>
      intro c
      obtain ⟨a, w⟩ := aw
      simp only [List.cons_append, cache_run]
      cases cache_access c a w with
      | none => rfl
      | some out =>
          dsimp only
          rw [List.append_eq, ih out.cache]
          cases cache_run out.cache l1 with
          | none => rfl
          | some p =>
              obtain ⟨c', rs⟩ := p
              dsimp only
              cases cache_run c' l2 with
              | none => rfl
              | some q =>
                  obtain ⟨c'', rs'⟩ := q
                  simp

/-- Reading a list of pairwise distinct fresh tags into an empty
fully-associative cache of sufficient capacity: every access misses and
the cache ends in the faCache shape. -/
theorem fa_fill (ts : List Nat) :
    ∀ N, ts.Nodup → ts.length ≤ N →
    cache_run (faCache N []) (ts.map (fun x => (x <<< 4, false)))
      = some (faCache N ts, List.replicate ts.length CACHE_MISS) := by
  induction ts using List.reverseRecOn with
  | nil =>
      intro N _ _
      rfl
  | append_singleton ts t ih =>
      intro N hnd hlen
      have hvnd : ts.Nodup := hnd.of_append_left
      have hts : t ∉ ts := by
        rw [List.nodup_append] at hnd
        intro hm
        exact hnd.2.2 hm (by simp)
      have hlt : ts.length < N := by
        have : (ts ++ [t]).length = ts.length + 1 := by simp
        omega
      rw [List.map_append, cache_run_append, ih N hvnd (by omega)]
      show (match cache_run (faCache N ts) [(t <<< 4, false)] with
        | none => none
        | some (c'', rs') => some (c'', List.replicate ts.length CACHE_MISS ++ rs'))
        = _
      simp only [cache_run, fa_step N ts t hts hlt]
      have hrep : List.replicate ts.length CACHE_MISS ++ [CACHE_MISS]
          = List.replicate (ts ++ [t]).length CACHE_MISS := by
        rw [← List.replicate_succ']
        simp
      rw [hrep]

/-- Accessing a fresh tag in a full fully-associative cache evicts way 0,
the tail of the recency list, which holds the first (least recently used)
tag. -/
theorem fa_evict (N : Nat) (ts : List Nat) (t : Nat) (hN : 1 ≤ N)
    (hts : t ∉ ts) (hfull : ts.length = N) :
    ∃ lru', cache_access (faCache N ts) (t <<< 4) false
      = some ⟨CACHE_MISS,
          ⟨16 * N, 16, FULLY_ASSOC, 1, N, 4, 0, 28,
            [⟨N, (ts.map (fun x => ⟨true, false, x⟩)).set 0 ⟨true, false, t⟩,
              lru'⟩],
            N + 1, 0, N + 1, N + 1, 0, 0, 0⟩,
          []⟩ ∧
      (1 < N → ∃ z, lru'.getLast? = some z) := by
  have hfl : faLines ts N = ts.map (fun x => ⟨true, false, x⟩) := by
    unfold faLines
    have h0 : N - ts.length = 0 := by omega
    rw [h0]
    simp
  cases ts with
  | nil =>
      exfalso
      simp at hfull
      omega
  | cons h tt =>
  have hfind : find_line ⟨N, faLines (h :: tt) N, faLru N (h :: tt).length⟩ t
      = none := by
    rw [find_line]
    show firstIdxWhere (fun l => l.valid && l.tag == t)
      (faLines (h :: tt) N) = none
    rw [hfl, firstIdxWhere_eq_none]
    intro x hx
    obtain ⟨u, hu, rfl⟩ := List.mem_map.mp hx
    have hut : u ≠ t := fun he => hts (he ▸ hu)
    simp [hut]
  have hinvnone : find_invalid_line
      ⟨N, faLines (h :: tt) N, faLru N (h :: tt).length⟩ = none := by
    rw [find_invalid_line]
    show firstIdxWhere (fun l => !l.valid) (faLines (h :: tt) N) = none
    rw [hfl, firstIdxWhere_eq_none]
    intro x hx
    obtain ⟨u, hu, rfl⟩ := List.mem_map.mp hx
    rfl
  have hvict : (faLines (h :: tt) N).getD 0 default = ⟨true, false, h⟩ := by
    rw [hfl]
    rfl
  have hidx : cache_get_index (faCache N (h :: tt)) (t <<< 4) = 0 := rfl
  have htag : cache_get_tag (faCache N (h :: tt)) (t <<< 4) = t := by
    show (t <<< 4) >>> (4 + 0) = t
    exact Nat.shiftLeft_shiftRight t 4
  have hset : (faCache N (h :: tt)).sets.getD 0 default
      = ⟨N, faLines (h :: tt) N, faLru N (h :: tt).length⟩ := rfl
  by_cases hN1 : N = 1
  · subst hN1
    have hsel : select_victim
        ⟨1, faLines (h :: tt) 1, faLru 1 (h :: tt).length⟩ = some 0 := by
      rw [select_victim, hinvnone]
      rfl
    have hmove : lru_move_to_head
        ⟨1, (faLines (h :: tt) 1).set 0 ⟨true, false, t⟩,
          faLru 1 (h :: tt).length⟩ 0
        = ⟨1, (faLines (h :: tt) 1).set 0 ⟨true, false, t⟩,
          faLru 1 (h :: tt).length⟩ :=
      lru_move_to_head_of_ways_le_one _ _ (le_refl 1)
    refine ⟨faLru 1 (h :: tt).length, ?_, by intro hc; omega⟩
    simp only [cache_access, hidx, htag, hset, hfind, hsel, hvict, hmove]
    simp only [List.length_cons] at hfull ⊢
    simp [faCache, hfull, hfl]
  · have hN2 : 1 < N := by omega
    have hflru : faLru N (h :: tt).length = (List.range N).reverse := by
      unfold faLru
      rw [if_neg (by omega), hfull, Nat.sub_self]
      rw [show List.range' N 0 = [] from rfl, List.append_nil]
    have hhead : (faLru N (h :: tt).length).head? = some (N - 1) := by
      rw [hflru, List.head?_reverse]
      cases hNc : N with
      | zero => omega
      | succ m =>
          rw [List.range_succ, List.getLast?_concat]
          simp
    have hsel : select_victim
        ⟨N, faLines (h :: tt) N, faLru N (h :: tt).length⟩ = some 0 := by
      rw [select_victim, hinvnone]
      show (if (N == 1) = true then some 0
        else (faLru N (h :: tt).length).getLast?) = some 0
      have hbeq : (N == 1) = false := by
        simp only [beq_eq_false_iff_ne, ne_eq]
        omega
      rw [hbeq]
      simp only [Bool.false_eq_true, if_false]
      rw [hflru, List.getLast?_reverse, List.head?_range]
      simp
      omega
    have hmove : lru_move_to_head
        ⟨N, (faLines (h :: tt) N).set 0 ⟨true, false, t⟩,
          faLru N (h :: tt).length⟩ 0
        = ⟨N, (faLines (h :: tt) N).set 0 ⟨true, false, t⟩,
          0 :: (faLru N (h :: tt).length).erase 0⟩ := by
      unfold lru_move_to_head
      rw [if_neg ?hc]
      case hc =>
        push_neg
        refine ⟨show (1 : Nat) < N by omega, ?_⟩
        show ¬ (faLru N (h :: tt).length).head? = some 0
        rw [hhead]
        intro hc
        have hc' := Option.some.inj hc
        omega
    refine ⟨0 :: (faLru N (h :: tt).length).erase 0, ?_, ?_⟩
    · simp only [cache_access, hidx, htag, hset, hfind, hsel, hvict, hmove]
      simp only [List.length_cons] at hfull ⊢
      simp [faCache, hfull, hfl]
    · intro _
      have hne : (0 :: (faLru N (h :: tt).length).erase 0).getLast? ≠ none := by
        simp [List.getLast?_eq_none_iff]
      cases hlz : (0 :: (faLru N (h :: tt).length).erase 0).getLast? with
      | none => exact absurd hlz hne
      | some z => exact ⟨z, rfl⟩


/-- After the eviction of fa_evict, re-reading the evicted first tag h
misses again: way 0 now holds t, and h appears nowhere else. -/
theorem fa_reaccess_miss (N h t : Nat) (tt : List Nat) (lru' : List Nat)
    (hth : t ≠ h) (htt : h ∉ tt)
    (hv : N = 1 ∨ (N ≠ 1 ∧ ∃ z, lru'.getLast? = some z)) :
    ∃ o, cache_access
        ⟨16 * N, 16, FULLY_ASSOC, 1, N, 4, 0, 28,
          [⟨N, ((h :: tt).map (fun x => ⟨true, false, x⟩)).set 0
              ⟨true, false, t⟩, lru'⟩],
          N + 1, 0, N + 1, N + 1, 0, 0, 0⟩
        (h <<< 4) false = some o
      ∧ o.result = CACHE_MISS := by
  have hlines : ((h :: tt).map
        (fun x => (⟨true, false, x⟩ : cache_line_t))).set 0 ⟨true, false, t⟩
      = ⟨true, false, t⟩ :: tt.map (fun x => ⟨true, false, x⟩) := by
    rw [List.map_cons, List.set_cons_zero]
  have htag : cache_get_tag
      ⟨16 * N, 16, FULLY_ASSOC, 1, N, 4, 0, 28,
        [⟨N, ((h :: tt).map (fun x => ⟨true, false, x⟩)).set 0
            ⟨true, false, t⟩, lru'⟩],
        N + 1, 0, N + 1, N + 1, 0, 0, 0⟩ (h <<< 4) = h := by
    show (h <<< 4) >>> (4 + 0) = h
    exact Nat.shiftLeft_shiftRight h 4
  have hidx : cache_get_index
      ⟨16 * N, 16, FULLY_ASSOC, 1, N, 4, 0, 28,
        [⟨N, ((h :: tt).map (fun x => ⟨true, false, x⟩)).set 0
            ⟨true, false, t⟩, lru'⟩],
        N + 1, 0, N + 1, N + 1, 0, 0, 0⟩ (h <<< 4) = 0 := rfl
  have hset : (⟨16 * N, 16, FULLY_ASSOC, 1, N, 4, 0, 28,
        [⟨N, ((h :: tt).map (fun x => ⟨true, false, x⟩)).set 0
            ⟨true, false, t⟩, lru'⟩],
        N + 1, 0, N + 1, N + 1, 0, 0, 0⟩ : cache_t).sets.getD 0 default
      = ⟨N, ((h :: tt).map (fun x => ⟨true, false, x⟩)).set 0
          ⟨true, false, t⟩, lru'⟩ := rfl
  have hfind : find_line
      ⟨N, ((h :: tt).map (fun x => ⟨true, false, x⟩)).set 0
        ⟨true, false, t⟩, lru'⟩ h = none := by
    rw [find_line]
    show firstIdxWhere (fun l : cache_line_t => l.valid && l.tag == h)
      (((h :: tt).map (fun x => (⟨true, false, x⟩ : cache_line_t))).set 0
        ⟨true, false, t⟩) = none
    rw [hlines, firstIdxWhere_eq_none]
    intro x hx
    rcases List.mem_cons.mp hx with hx1 | hx2
    · rw [hx1]
      simp [hth]
    · obtain ⟨u, hu, rfl⟩ := List.mem_map.mp hx2
      have huh : u ≠ h := fun he => htt (he ▸ hu)
      simp [huh]
  have hinv : find_invalid_line
      ⟨N, ((h :: tt).map (fun x => ⟨true, false, x⟩)).set 0
        ⟨true, false, t⟩, lru'⟩ = none := by
    rw [find_invalid_line]
    show firstIdxWhere (fun l : cache_line_t => !l.valid)
      (((h :: tt).map (fun x => (⟨true, false, x⟩ : cache_line_t))).set 0
        ⟨true, false, t⟩) = none
    rw [hlines, firstIdxWhere_eq_none]
    intro x hx
    rcases List.mem_cons.mp hx with hx1 | hx2
    · rw [hx1]
      rfl
    · obtain ⟨u, hu, rfl⟩ := List.mem_map.mp hx2
      rfl
  have hselv : ∃ v, select_victim
      ⟨N, ((h :: tt).map (fun x => ⟨true, false, x⟩)).set 0
        ⟨true, false, t⟩, lru'⟩ = some v := by
    rcases hv with hv1 | ⟨hvne, z, hz⟩
    · refine ⟨0, ?_⟩
      rw [select_victim, hinv]
      subst hv1
      rfl
    · refine ⟨z, ?_⟩
      rw [select_victim, hinv]
      have hb : (N == 1) = false := beq_eq_false_iff_ne.mpr hvne
      show (if (N == 1) = true then some 0 else lru'.getLast?) = some z
      rw [hb]
      simp [hz]
  obtain ⟨v, hvv⟩ := hselv
  simp only [cache_access, hidx, htag, hset, hfind, hvv]
  exact ⟨_, rfl, rfl⟩


/-- C4: LRU eviction in a fully-associative cache.  General part: from an
empty fully-associative cache of capacity N (1 <= N), reading N + 1
pairwise distinct block addresses gives N + 1 misses, and re-reading the
first address then misses again (its block was the LRU victim).  Concrete
part, the spec's fixed script at capacity 2 with A = 0x100, B = 0x200,
C = 0x300: the three reads all miss, a subsequent read of A misses (A was
evicted) and a subsequent read of B hits. -/
theorem C4_lru_eviction :
    (∀ (N : Nat) (ts : List Nat) (t : Nat),
      1 ≤ N → (ts ++ [t]).Nodup → ts.length = N →
      ∃ c rs, cache_run (faInit N)
          ((ts ++ [t]).map (fun x => (x <<< 4, false))) = some (c, rs)
        ∧ rs = List.replicate (N + 1) CACHE_MISS
        ∧ ∃ o, cache_access c (ts.headD 0 <<< 4) false = some o
            ∧ o.result = CACHE_MISS) ∧
    (cache_run (cache_init ⟨32, 16, FULLY_ASSOC⟩)
        [(0x100, false), (0x200, false), (0x300, false)]).map Prod.snd
      = some [CACHE_MISS, CACHE_MISS, CACHE_MISS] ∧
    (cache_run (cache_init ⟨32, 16, FULLY_ASSOC⟩)
        [(0x100, false), (0x200, false), (0x300, false)]).bind
        (fun p => (cache_access p.1 0x100 false).map (fun o => o.result))
      = some CACHE_MISS ∧
    (cache_run (cache_init ⟨32, 16, FULLY_ASSOC⟩)
        [(0x100, false), (0x200, false), (0x300, false)]).bind
        (fun p => (cache_access p.1 0x200 false).map (fun o => o.result))
      = some CACHE_HIT := by
  refine ⟨?_, by decide, by decide, by decide⟩
  intro N ts t hN hnd hfull
  have hndts : ts.Nodup := hnd.of_append_left
  have hts : t ∉ ts := by
    rw [List.nodup_append] at hnd
    intro hm
    exact hnd.2.2 hm (by simp)
  cases ts with
  | nil =>
      exfalso
      simp at hfull
      omega
  | cons h tt =>
  have hth : t ≠ h := fun he => hts (he ▸ List.mem_cons_self h tt)
  have htt : h ∉ tt := (List.nodup_cons.mp hndts).1
  obtain ⟨lru', hacc, hlast⟩ := fa_evict N (h :: tt) t hN hts hfull
  rw [faInit_eq, List.map_append, cache_run_append,
    fa_fill (h :: tt) N hndts (le_of_eq hfull)]
  have hsel : N = 1 ∨ (N ≠ 1 ∧ ∃ z, lru'.getLast? = some z) := by
    by_cases hN1 : N = 1
    · exact Or.inl hN1
    · exact Or.inr ⟨hN1, hlast (by omega)⟩
  obtain ⟨o, ho, hores⟩ := fa_reaccess_miss N h t tt lru' hth htt hsel
  refine ⟨⟨16 * N, 16, FULLY_ASSOC, 1, N, 4, 0, 28,
      [⟨N, ((h :: tt).map (fun x => ⟨true, false, x⟩)).set 0 ⟨true, false, t⟩,
        lru'⟩],
      N + 1, 0, N + 1, N + 1, 0, 0, 0⟩,
    List.replicate (N + 1) CACHE_MISS, ?_, rfl, ?_⟩
  · simp only [cache_run, hacc]
    show some (_, List.replicate (h :: tt).length CACHE_MISS ++ [CACHE_MISS])
      = _
    rw [← List.replicate_succ', hfull]
  · show ∃ o, cache_access _ ((h :: tt).headD 0 <<< 4) false = some o
      ∧ o.result = CACHE_MISS
    exact ⟨o, ho, hores⟩

/-- Witness: the general part of C4 at capacity 2 with tags 1, 2, 3. -/
theorem C4_lru_eviction_witness :
    ∃ c rs, cache_run (faInit 2)
        (([1, 2] ++ [3]).map (fun x => (x <<< 4, false))) = some (c, rs)
      ∧ rs = List.replicate (2 + 1) CACHE_MISS
      ∧ ∃ o, cache_access c ([1, 2].headD 0 <<< 4) false = some o
          ∧ o.result = CACHE_MISS :=
  C4_lru_eviction.1 2 [1, 2] 3 (by decide) (by decide) (by decide)

end VirtMem
